import Mathlib

/-!
Verification of the FIT SDK fragment: the `HrmProfileMesg` accessor wrapper
from `src/fit_hrm_profile_mesg.hpp`, together with the field-bag (`Mesg`),
decoder and encoder components it sits on.  The field bag, decoder and
encoder are not present in the visible source slice; they are modelled from
the specification (sections 3, 4.2, 4.3 and 4.4), as marked on each
definition.
-/

namespace fit

/-! ## Byte-level serialization primitives -/

/-- Byte order used for multi-byte values in records. -/
inductive Endianness where
  | little
  | big
deriving DecidableEq

/-- Little-endian serialization of a value into `n` bytes (truncating). -/
def toBytesLE : Nat → Nat → List Nat
  | 0, _ => []
  | n + 1, v => v % 256 :: toBytesLE n (v / 256)

/-- Little-endian deserialization; each input byte is masked to 8 bits. -/
def fromBytesLE : List Nat → Nat
  | [] => 0
  | b :: bs => b % 256 + 256 * fromBytesLE bs

/-- Serialization of a value into `n` bytes in the given byte order. -/
def toBytesE (e : Endianness) (n v : Nat) : List Nat :=
  match e with
  | .little => toBytesLE n v
  | .big => (toBytesLE n v).reverse

/-- Deserialization of a byte list in the given byte order. -/
def fromBytesE (e : Endianness) (bs : List Nat) : Nat :=
  match e with
  | .little => fromBytesLE bs
  | .big => fromBytesLE bs.reverse

/-! ## CRC-16 (FIT polynomial 0xA001, nibble-table algorithm) -/

/-- Nibble lookup table of the FIT CRC-16 (polynomial 0xA001). -/
def crcTable : Nat → Nat
  | 0 => 0x0000
  | 1 => 0xCC01
  | 2 => 0xD801
  | 3 => 0x1401
  | 4 => 0xF001
  | 5 => 0x3C01
  | 6 => 0x2801
  | 7 => 0xE401
  | 8 => 0xA001
  | 9 => 0x6C01
  | 10 => 0x7801
  | 11 => 0xB401
  | 12 => 0x5001
  | 13 => 0x9C01
  | 14 => 0x8801
  | 15 => 0x4401
  | _ => 0

/-- One nibble step of the CRC: shift by four and fold in the table entry. -/
def crcNibble (crc nib : Nat) : Nat :=
  ((crc / 16) % 0x1000) ^^^ crcTable (crc % 16) ^^^ crcTable (nib % 16)

/-- Fold one data byte into the running CRC (low nibble first). -/
def fitCrc16Byte (crc b : Nat) : Nat :=
  crcNibble (crcNibble crc (b % 16)) ((b / 16) % 16)

/-- CRC-16 of a byte list, starting from zero. -/
def fitCrc16 (bs : List Nat) : Nat :=
  bs.foldl fitCrc16Byte 0

/-! ## Base types

Modelled from the spec: the closed set of numeric base types of section 3
(`fit.hpp` is not in the visible slice).  Floating-point and string base
types are omitted; the integer family, the 8-bit enum and the `Z`-variants
are covered.  Each base type carries an element size in bytes and a raw
invalid-sentinel bit pattern: all-ones for unsigned and enum, the min-int
pattern for signed, and zero for `Z`-types (spec glossary). -/

inductive BaseType where
  | enum
  | sint8
  | uint8
  | sint16
  | uint16
  | sint32
  | uint32
  | uint8z
  | uint16z
  | uint32z
deriving DecidableEq

/-- Element size in bytes of a base type. -/
def BaseType.size : BaseType → Nat
  | .enum | .sint8 | .uint8 | .uint8z => 1
  | .sint16 | .uint16 | .uint16z => 2
  | .sint32 | .uint32 | .uint32z => 4

/-- Raw bit pattern of the invalid sentinel of a base type. -/
def BaseType.invalidRaw : BaseType → Nat
  | .enum => 0xFF
  | .sint8 => 0x80
  | .uint8 => 0xFF
  | .sint16 => 0x8000
  | .uint16 => 0xFFFF
  | .sint32 => 0x80000000
  | .uint32 => 0xFFFFFFFF
  | .uint8z => 0
  | .uint16z => 0
  | .uint32z => 0

/-- Wire code of a base type as it appears in Definition-record field
triples; bit 7 flags endianness applicability. -/
def BaseType.code : BaseType → Nat
  | .enum => 0x00
  | .sint8 => 0x01
  | .uint8 => 0x02
  | .sint16 => 0x83
  | .uint16 => 0x84
  | .sint32 => 0x85
  | .uint32 => 0x86
  | .uint8z => 0x0A
  | .uint16z => 0x8B
  | .uint32z => 0x8C

/-- Decode a wire base-type code; unknown codes fall back to raw bytes
(`uint8`) since unknown data is surfaced, never an error (spec section 7). -/
def baseTypeOfCode (c : Nat) : BaseType :=
  if c % 256 = 0x00 then .enum
  else if c % 256 = 0x01 then .sint8
  else if c % 256 = 0x02 then .uint8
  else if c % 256 = 0x83 then .sint16
  else if c % 256 = 0x84 then .uint16
  else if c % 256 = 0x85 then .sint32
  else if c % 256 = 0x86 then .uint32
  else if c % 256 = 0x0A then .uint8z
  else if c % 256 = 0x8B then .uint16z
  else if c % 256 = 0x8C then .uint32z
  else .uint8

/-! ## Field bag (`Mesg`)

Modelled from the spec: the generic field-bag base class `Mesg` of
`fit_mesg.hpp`, which is not in the visible slice (spec sections 3 and
4.2).  A field carries a field number, a base type and an ordered list of
raw values; a field bag carries a global message number and its fields in
order.  Only the main-field path of the subfield selector is modelled. -/

structure Field where
  num : Nat
  type : BaseType
  values : List Nat
deriving DecidableEq

structure Mesg where
  num : Nat
  fields : List Field
deriving DecidableEq

/-- Look up a field by field number (first match). -/
def Mesg.findField (m : Mesg) (fieldNum : Nat) : Option Field :=
  m.fields.find? (fun f => f.num == fieldNum)

/-- Write `v` at index `idx`, extending the list as needed and padding
intermediate slots with the invalid sentinel `inv` (spec section 4.2). -/
def setAt (vals : List Nat) (idx v inv : Nat) : List Nat :=
  if idx < vals.length then vals.set idx v
  else vals ++ List.replicate (idx - vals.length) inv ++ [v]

/-- Raw read of a field value: an absent field, an index beyond the current
length, or a stored invalid sentinel all yield the target type's invalid
value (spec section 4.2). -/
def Mesg.getRaw (m : Mesg) (t : BaseType) (fieldNum idx : Nat) : Nat :=
  match m.findField fieldNum with
  | none => t.invalidRaw
  | some f =>
    let raw := f.values.getD idx f.type.invalidRaw
    if raw = f.type.invalidRaw then t.invalidRaw else raw

/-- Update the field list: overwrite the first field with the given number
(its stored type becomes the profile type `t`), or append a new field. -/
def setFieldIn : List Field → Nat → BaseType → Nat → Nat → List Field
  | [], fieldNum, t, idx, v => [⟨fieldNum, t, setAt [] idx v t.invalidRaw⟩]
  | f :: fs, fieldNum, t, idx, v =>
    if f.num = fieldNum then ⟨f.num, t, setAt f.values idx v t.invalidRaw⟩ :: fs
    else f :: setFieldIn fs fieldNum t idx v

/-- Raw write of a field value (spec section 4.2). -/
def Mesg.setRaw (m : Mesg) (t : BaseType) (fieldNum idx v : Nat) : Mesg :=
  ⟨m.num, setFieldIn m.fields fieldNum t idx v⟩

/-- Scale/offset forward transform of the read path: `physical =
raw/scale − offset`, not applied when the raw value is the sentinel, which
reads back as the target type's invalid value (spec sections 3 and 4.2). -/
def readPhysical (t : BaseType) (scale offset : ℚ) (raw : Nat) : ℚ :=
  if raw = t.invalidRaw then (t.invalidRaw : ℚ) else (raw : ℚ) / scale - offset

/-- Inverse transform of the write path, with rounding (spec section 3). -/
def writeRaw (scale offset : ℚ) (v : ℚ) : ℤ :=
  round ((v + offset) * scale)

/-- Truncate a signed raw value into the base type's width for storage. -/
def storeRaw (t : BaseType) (r : ℤ) : Nat :=
  (r % (256 ^ t.size : ℤ)).toNat

/-- Scaled field read (spec section 4.2). -/
def Mesg.getScaled (m : Mesg) (t : BaseType) (fieldNum idx : Nat) (scale offset : ℚ) : ℚ :=
  readPhysical t scale offset (m.getRaw t fieldNum idx)

/-- Scaled field write (spec section 4.2). -/
def Mesg.setScaled (m : Mesg) (t : BaseType) (fieldNum idx : Nat) (scale offset v : ℚ) : Mesg :=
  m.setRaw t fieldNum idx (storeRaw t (writeRaw scale offset v))

/-- Subfield selector value for the main field (`FIT_SUBFIELD_INDEX_MAIN_FIELD`). -/
def FIT_SUBFIELD_INDEX_MAIN_FIELD : Nat := 0xFFFE

/-- Modelled from the spec: `Mesg::GetFieldUINT16Value` of the missing
`fit_mesg.hpp`; only the main-field subfield path is modelled. -/
def Mesg.GetFieldUINT16Value (m : Mesg) (fieldNum idx _subFieldIdx : Nat) : Nat :=
  m.getRaw .uint16 fieldNum idx

/-- Modelled from the spec: `Mesg::SetFieldUINT16Value`. -/
def Mesg.SetFieldUINT16Value (m : Mesg) (fieldNum v idx _subFieldIdx : Nat) : Mesg :=
  m.setRaw .uint16 fieldNum idx v

/-- Modelled from the spec: `Mesg::GetFieldENUMValue`. -/
def Mesg.GetFieldENUMValue (m : Mesg) (fieldNum idx _subFieldIdx : Nat) : Nat :=
  m.getRaw .enum fieldNum idx

/-- Modelled from the spec: `Mesg::SetFieldENUMValue`. -/
def Mesg.SetFieldENUMValue (m : Mesg) (fieldNum v idx _subFieldIdx : Nat) : Mesg :=
  m.setRaw .enum fieldNum idx v

/-- Modelled from the spec: `Mesg::GetFieldUINT16ZValue`. -/
def Mesg.GetFieldUINT16ZValue (m : Mesg) (fieldNum idx _subFieldIdx : Nat) : Nat :=
  m.getRaw .uint16z fieldNum idx

/-- Modelled from the spec: `Mesg::SetFieldUINT16ZValue`. -/
def Mesg.SetFieldUINT16ZValue (m : Mesg) (fieldNum v idx _subFieldIdx : Nat) : Mesg :=
  m.setRaw .uint16z fieldNum idx v

/-- Modelled from the spec: `Mesg::GetFieldUINT8ZValue`. -/
def Mesg.GetFieldUINT8ZValue (m : Mesg) (fieldNum idx _subFieldIdx : Nat) : Nat :=
  m.getRaw .uint8z fieldNum idx

/-- Modelled from the spec: `Mesg::SetFieldUINT8ZValue`. -/
def Mesg.SetFieldUINT8ZValue (m : Mesg) (fieldNum v idx _subFieldIdx : Nat) : Mesg :=
  m.setRaw .uint8z fieldNum idx v

/-! ## The `HrmProfileMesg` wrapper (from `src/fit_hrm_profile_mesg.hpp`) -/

namespace Profile

/-- Global message number of the HRM profile message. -/
def MESG_HRM_PROFILE : Nat := 16

end Profile

namespace HrmProfileMesg

/-- `HrmProfileMesg::HrmProfileMesg(void)`: a fresh bag with the HRM
profile global message number and no fields. -/
def new : Mesg :=
  ⟨Profile.MESG_HRM_PROFILE, []⟩

/-- `HrmProfileMesg::GetMessageIndex`. -/
def GetMessageIndex (m : Mesg) : Nat :=
  m.GetFieldUINT16Value 254 0 FIT_SUBFIELD_INDEX_MAIN_FIELD

/-- `HrmProfileMesg::SetMessageIndex`. -/
def SetMessageIndex (m : Mesg) (messageIndex : Nat) : Mesg :=
  m.SetFieldUINT16Value 254 messageIndex 0 FIT_SUBFIELD_INDEX_MAIN_FIELD

/-- `HrmProfileMesg::GetEnabled`. -/
def GetEnabled (m : Mesg) : Nat :=
  m.GetFieldENUMValue 0 0 FIT_SUBFIELD_INDEX_MAIN_FIELD

/-- `HrmProfileMesg::SetEnabled`. -/
def SetEnabled (m : Mesg) (enabled : Nat) : Mesg :=
  m.SetFieldENUMValue 0 enabled 0 FIT_SUBFIELD_INDEX_MAIN_FIELD

/-- `HrmProfileMesg::GetHrmAntId`. -/
def GetHrmAntId (m : Mesg) : Nat :=
  m.GetFieldUINT16ZValue 1 0 FIT_SUBFIELD_INDEX_MAIN_FIELD

/-- `HrmProfileMesg::SetHrmAntId`. -/
def SetHrmAntId (m : Mesg) (hrmAntId : Nat) : Mesg :=
  m.SetFieldUINT16ZValue 1 hrmAntId 0 FIT_SUBFIELD_INDEX_MAIN_FIELD

/-- `HrmProfileMesg::GetLogHrv`. -/
def GetLogHrv (m : Mesg) : Nat :=
  m.GetFieldENUMValue 2 0 FIT_SUBFIELD_INDEX_MAIN_FIELD

/-- `HrmProfileMesg::SetLogHrv`. -/
def SetLogHrv (m : Mesg) (logHrv : Nat) : Mesg :=
  m.SetFieldENUMValue 2 logHrv 0 FIT_SUBFIELD_INDEX_MAIN_FIELD

/-- `HrmProfileMesg::GetHrmAntIdTransType`. -/
def GetHrmAntIdTransType (m : Mesg) : Nat :=
  m.GetFieldUINT8ZValue 3 0 FIT_SUBFIELD_INDEX_MAIN_FIELD

/-- `HrmProfileMesg::SetHrmAntIdTransType`. -/
def SetHrmAntIdTransType (m : Mesg) (hrmAntIdTransType : Nat) : Mesg :=
  m.SetFieldUINT8ZValue 3 hrmAntIdTransType 0 FIT_SUBFIELD_INDEX_MAIN_FIELD

end HrmProfileMesg

/-- Length of the value list currently stored at a field number (0 when the
field is absent). -/
def Mesg.fieldLength (m : Mesg) (f : Nat) : Nat :=
  (m.findField f).elim 0 (fun g => g.values.length)

/-! ## Decoder

Modelled from the spec: the streaming decoder of section 4.3 is not in the
visible slice.  The byte-oriented state machine is modelled as a pure
function over the input byte list: header parse, record loop with the
local-message-type table, CRC trailer check, and chained files.  Compressed
timestamp record headers are handled as Data records addressing bits 5–6
(timestamp synthesis itself is out of this model); developer-data field
descriptions in Definition records are consumed and skipped. -/

/-- Error taxonomy surfaced by the decoder (spec section 7; the errors of
paths not modelled here, such as `TypeMismatch`, are omitted). -/
inductive DecodeError where
  | shortRead
  | badHeader
  | crcMismatch
  | undefinedLocalType
  | unsupportedProtocolVersion
deriving DecidableEq

/-- One `(field_number, size, base_type)` triple of a Definition record. -/
structure FieldDef where
  num : Nat
  size : Nat
  type : BaseType
deriving DecidableEq

/-- A local-message-type slot binding: endianness, global message number
and ordered field definitions (spec section 3). -/
structure LocalDef where
  endian : Endianness
  gmn : Nat
  fieldDefs : List FieldDef
deriving DecidableEq

/-- The local-message-type table of the current decoding session. -/
abbrev Table := Nat → Option LocalDef

/-- The table at the start of a file: every slot unset. -/
def emptyTable : Table := fun _ => none

/-- Read `count` values of `w` bytes each from the front of a byte list. -/
def readValues (e : Endianness) (w : Nat) : Nat → List Nat → List Nat
  | 0, _ => []
  | n + 1, bs => fromBytesE e (bs.take w) :: readValues e w n (bs.drop w)

/-- Parse the fields of a Data record in declaration order against the
definition's field list; each field consumes its declared size, the values
being the leading whole elements (spec section 4.3, Data body). -/
def parseFields (e : Endianness) : List FieldDef → List Nat → Option (List Field × List Nat)
  | [], bs => some ([], bs)
  | fd :: fds, bs =>
    if fd.size ≤ bs.length then
      match parseFields e fds (bs.drop fd.size) with
      | some (fs, rest) =>
        some (⟨fd.num, fd.type, readValues e fd.type.size (fd.size / fd.type.size) bs⟩ :: fs,
          rest)
      | none => none
    else none

/-- Parse `n` field-definition triples of a Definition record. -/
def parseFieldDefs : Nat → List Nat → Option (List FieldDef × List Nat)
  | 0, bs => some ([], bs)
  | n + 1, b1 :: b2 :: b3 :: bs =>
    match parseFieldDefs n bs with
    | some (fds, rest) => some (⟨b1 % 256, b2 % 256, baseTypeOfCode b3⟩ :: fds, rest)
    | none => none
  | _ + 1, _ => none

/-- Drop `n` bytes, failing when the input is shorter. -/
def dropN? : Nat → List Nat → Option (List Nat)
  | 0, bs => some bs
  | n + 1, _ :: bs => dropN? n bs
  | _ + 1, [] => none

/-- Parse a Definition record body (after the record header byte) and
install the definition at the given local slot, replacing any prior one
(spec section 4.3, Definition body). -/
def parseDefRecord (tbl : Table) (slot : Nat) (hasDev : Bool) (bytes : List Nat) :
    Except DecodeError (Option Mesg × Table × List Nat) :=
  match bytes with
  | _r :: arch :: g1 :: g2 :: fc :: rest =>
    let e := if arch % 256 = 1 then Endianness.big else Endianness.little
    let gmn := fromBytesE e [g1, g2]
    match parseFieldDefs (fc % 256) rest with
    | some (fds, rest2) =>
      let after :=
        if hasDev then
          match rest2 with
          | dc :: r2 => dropN? (3 * (dc % 256)) r2
          | [] => none
        else some rest2
      match after with
      | some rest3 => .ok (none, Function.update tbl slot (some ⟨e, gmn, fds⟩), rest3)
      | none => .error .shortRead
    | none => .error .shortRead
  | _ => .error .shortRead

/-- Parse a Data record body against the definition installed at the given
local slot; an unset slot raises `UndefinedLocalType` (spec section 7). -/
def parseDataRecord (tbl : Table) (slot : Nat) (bytes : List Nat) :
    Except DecodeError (Option Mesg × Table × List Nat) :=
  match tbl slot with
  | none => .error .undefinedLocalType
  | some d =>
    match parseFields d.endian d.fieldDefs bytes with
    | some (fs, rest) => .ok (some ⟨d.gmn, fs⟩, tbl, rest)
    | none => .error .shortRead

/-- Whether a record-header byte denotes a Data record: bit 7 set means a
compressed-timestamp Data record; otherwise bit 6 clear means Data (spec
section 4.3, record header byte). -/
def headerIsData (b : Nat) : Bool :=
  (b % 256 ≥ 0x80) || ((b % 256) &&& 0x40 == 0)

/-- The local-message-type slot addressed by a record-header byte: bits 5–6
in the compressed-timestamp shape, bits 0–3 in the normal shape. -/
def headerSlot (b : Nat) : Nat :=
  if b % 256 ≥ 0x80 then (b % 256) / 32 % 4 else (b % 256) % 16

/-- Parse one record: the header byte selects the record shape, then the
matching body parser runs (spec section 4.3). -/
def parseRecord (tbl : Table) (bytes : List Nat) :
    Except DecodeError (Option Mesg × Table × List Nat) :=
  match bytes with
  | [] => .error .shortRead
  | b :: rest =>
    let h := b % 256
    if h ≥ 0x80 then parseDataRecord tbl (h / 32 % 4) rest
    else if h &&& 0x40 ≠ 0 then parseDefRecord tbl (h % 16) (h &&& 0x20 != 0) rest
    else parseDataRecord tbl (h % 16) rest

/-- The record loop: consume the record region, emitting field bags per
Data record in stream order; `fuel` bounds the number of records (at most
one per byte). -/
def decodeRecords : Nat → Table → List Mesg → List Nat → Except DecodeError (List Mesg)
  | _, _, msgs, [] => .ok msgs
  | 0, _, _, _ :: _ => .error .shortRead
  | fuel + 1, tbl, msgs, b :: rest =>
    match parseRecord tbl (b :: rest) with
    | .error err => .error err
    | .ok (m?, tbl', rest') => decodeRecords fuel tbl' (msgs ++ m?.toList) rest'

/-- Header-CRC acceptance for 14-byte headers: a zero stored value or one
matching the CRC of the first 12 bytes passes. -/
def headerCrcOk (stream : List Nat) (c1 c2 : Nat) : Bool :=
  (fromBytesLE [c1, c2] == 0) || (fromBytesLE [c1, c2] == fitCrc16 (stream.take 12))

/-- Decode the record region and the 2-byte CRC trailer of one file, given
the whole stream, the header size and the data size; the trailing CRC
covers all prior bytes including the header (spec section 3, invariants). -/
def decodeBody (stream : List Nat) (hsz dataSize : Nat) (body : List Nat) :
    Except DecodeError (List Mesg × List Nat) :=
  if dataSize + 2 ≤ body.length then
    match decodeRecords dataSize emptyTable [] (body.take dataSize) with
    | .error err => .error err
    | .ok msgs =>
      if fromBytesLE ((body.drop dataSize).take 2) = fitCrc16 (stream.take (hsz + dataSize))
      then .ok (msgs, (body.drop dataSize).drop 2)
      else .error .crcMismatch
  else .error .shortRead

/-- Decode one FIT file from the front of the stream: 12- or 14-byte
header (size, protocol version, profile version, 4-byte data size, `.FIT`
tag, optional header CRC), records, CRC trailer; returns the emitted field
bags and the remaining bytes (spec sections 3 and 4.3). -/
def decodeOne (stream : List Nat) : Except DecodeError (List Mesg × List Nat) :=
  match stream with
  | hs :: pv :: _p1 :: _p2 :: s1 :: s2 :: s3 :: s4 :: t1 :: t2 :: t3 :: t4 :: rest =>
    if [t1 % 256, t2 % 256, t3 % 256, t4 % 256] = [0x2E, 0x46, 0x49, 0x54] then
      if pv % 256 / 16 > 2 then .error .unsupportedProtocolVersion
      else if hs % 256 = 12 then decodeBody stream 12 (fromBytesLE [s1, s2, s3, s4]) rest
      else if hs % 256 = 14 then
        match rest with
        | c1 :: c2 :: rest2 =>
          if headerCrcOk stream c1 c2 then
            decodeBody stream 14 (fromBytesLE [s1, s2, s3, s4]) rest2
          else .error .crcMismatch
        | _ => .error .shortRead
      else .error .badHeader
    else .error .badHeader
  | _ => .error .shortRead

/-- Decode a stream of chained FIT files: each file resets the
local-message-type table and CRC; records accumulate in order (spec
section 4.3, chained files). -/
def decodeFiles : Nat → List Nat → Except DecodeError (List Mesg)
  | 0, _ => .error .shortRead
  | fuel + 1, stream =>
    match decodeOne stream with
    | .error err => .error err
    | .ok (msgs, rest) =>
      if rest.isEmpty then .ok msgs
      else
        match decodeFiles fuel rest with
        | .error err => .error err
        | .ok more => .ok (msgs ++ more)

/-- Modelled from the spec: the whole-stream decoder (spec section 4.3);
the fuel is ample since every file consumes at least 14 bytes. -/
def decode (stream : List Nat) : Except DecodeError (List Mesg) :=
  decodeFiles (stream.length + 1) stream

/-! ## Encoder

Modelled from the spec: the encoder of section 4.4 is not in the visible
slice.  It accepts field bags in call order, keeps a local-message-type
table keyed by `(global_message_number, field layout)` under the globally
chosen endianness with LRU eviction over 15 slots, emits a Definition
record only on a cache miss, then the Data record; finalization writes the
data size into the header and appends the trailing CRC. -/

/-- Field layout of a bag as its Definition record declares it: the bag's
fields in order, each sized `element_count × element_size`. -/
def layoutOf (m : Mesg) : List FieldDef :=
  m.fields.map (fun f => ⟨f.num, f.values.length * f.type.size, f.type⟩)

/-- Endianness byte of a Definition record (0 little, 1 big). -/
def archByte : Endianness → Nat
  | .little => 0
  | .big => 1

/-- Serialized Data-record payload: the bag's fields in order, each value
in its base type's width and the chosen byte order. -/
def dataPayload (e : Endianness) (m : Mesg) : List Nat :=
  m.fields.flatMap (fun f => f.values.flatMap (fun v => toBytesE e f.type.size v))

/-- A Data record: normal record header byte carrying the local slot, then
the payload. -/
def dataRecord (e : Endianness) (slot : Nat) (m : Mesg) : List Nat :=
  slot % 16 :: dataPayload e m

/-- A Definition record: header byte with bit 6 set and the local slot,
reserved byte, endianness byte, global message number, field count, and one
`(number, size, base_type)` triple per field in order. -/
def defRecord (e : Endianness) (slot gmn : Nat) (fds : List FieldDef) : List Nat :=
  (0x40 + slot % 16) :: 0 :: archByte e :: (toBytesE e 2 gmn ++
    [fds.length % 256] ++ fds.flatMap (fun fd => [fd.num % 256, fd.size % 256, fd.type.code]))

/-- Encoder cache: `(slot, global message number, layout)` entries in
most-recently-used-first order, at most 15 of them. -/
structure EncState where
  entries : List (Nat × Nat × List FieldDef)
deriving DecidableEq

/-- The encoder's initial cache: empty. -/
def encInit : EncState := ⟨[]⟩

/-- Look up the slot already assigned to a `(message number, layout)` key. -/
def lookupKey (st : EncState) (gmn : Nat) (fds : List FieldDef) : Option Nat :=
  (st.entries.find? (fun en => decide (en.2.1 = gmn ∧ en.2.2 = fds))).map (fun en => en.1)

/-- Smallest slot in 0–14 not currently assigned. -/
def freshSlot (st : EncState) : Nat :=
  ((List.range 15).find? (fun s => st.entries.all (fun en => en.1 != s))).getD 0

/-- Slot assigned on a cache miss: a fresh slot while fewer than 15 are in
use, otherwise the least-recently-used entry's slot is evicted. -/
def allocSlot (st : EncState) : Nat :=
  if st.entries.length < 15 then freshSlot st
  else ((st.entries.getLast?).map (fun en => en.1)).getD 0

/-- Encode one bag: on a cache hit emit only the Data record; on a miss
install the key at the allocated slot and emit the Definition record then
the Data record.  The touched entry moves to the front (most recent). -/
def encodeStep (e : Endianness) (st : EncState) (m : Mesg) : EncState × List Nat :=
  match lookupKey st m.num (layoutOf m) with
  | some slot =>
    (⟨(slot, m.num, layoutOf m) :: st.entries.filter (fun en => en.1 != slot)⟩,
      dataRecord e slot m)
  | none =>
    (⟨(allocSlot st, m.num, layoutOf m) ::
        st.entries.filter (fun en => en.1 != allocSlot st)⟩,
      defRecord e (allocSlot st) m.num (layoutOf m) ++ dataRecord e (allocSlot st) m)

/-- Encode the record region: bags in call order. -/
def encodeRecords (e : Endianness) : EncState → List Mesg → List Nat
  | _, [] => []
  | st, m :: ms => (encodeStep e st m).2 ++ encodeRecords e (encodeStep e st m).1 ms

/-- Modelled from the spec: the whole-file encoder (spec section 4.4) —
12-byte header carrying the data size, the records, the trailing CRC over
all prior bytes. -/
def encodeFile (e : Endianness) (msgs : List Mesg) : List Nat :=
  (12 :: 16 :: 0 :: 0 :: (toBytesLE 4 (encodeRecords e encInit msgs).length ++
      [0x2E, 0x46, 0x49, 0x54]) ++ encodeRecords e encInit msgs) ++
    toBytesLE 2 (fitCrc16 (12 :: 16 :: 0 :: 0 ::
      (toBytesLE 4 (encodeRecords e encInit msgs).length ++ [0x2E, 0x46, 0x49, 0x54]) ++
      encodeRecords e encInit msgs))


/-! ## Well-formedness of wire data -/

/-- Projection of a record-parse result onto the emitted message and the
remaining bytes, discarding the table component. -/
def mesgPart (r : Except DecodeError (Option Mesg × Table × List Nat)) :
    Except DecodeError (Option Mesg × List Nat) :=
  r.map (fun p => (p.1, p.2.2))

/-- Well-formedness of a field as the decoder produces it: the field
number fits a byte, the serialized size fits the Definition record's size
byte, and every raw value fits the base type's width. -/
def FieldWF (f : Field) : Prop :=
  f.num < 256 ∧ f.values.length * f.type.size ≤ 255 ∧ ∀ v ∈ f.values, v < 256 ^ f.type.size

/-- Well-formedness of a field bag as the decoder produces it. -/
def MesgWF (B : Mesg) : Prop :=
  B.num < 65536 ∧ B.fields.length ≤ 255 ∧ ∀ f ∈ B.fields, FieldWF f

/-- Well-formedness of an installed local definition. -/
def DefWF (d : LocalDef) : Prop :=
  d.gmn < 65536 ∧ d.fieldDefs.length ≤ 255 ∧
    ∀ fd ∈ d.fieldDefs, fd.num < 256 ∧ fd.size < 256

/-- Well-formedness of a local-message-type table. -/
def TableWF (tbl : Table) : Prop :=
  ∀ k d, tbl k = some d → DefWF d

/-! ## Theorems -/

theorem length_toBytesLE (n v : Nat) : (toBytesLE n v).length = n := by
  induction n generalizing v with
  | zero => rfl
  | succ n ih => simp [toBytesLE, ih]

theorem length_toBytesE (e : Endianness) (n v : Nat) : (toBytesE e n v).length = n := by
  cases e <;> simp [toBytesE, length_toBytesLE]

theorem toBytesLE_lt (n v : Nat) : ∀ b ∈ toBytesLE n v, b < 256 := by
  induction n generalizing v with
  | zero => simp [toBytesLE]
  | succ n ih =>
    intro b hb
    simp only [toBytesLE, List.mem_cons] at hb
    rcases hb with h | h
    · omega
    · exact ih _ _ h

theorem toBytesE_lt (e : Endianness) (n v : Nat) : ∀ b ∈ toBytesE e n v, b < 256 := by
  cases e with
  | little => exact toBytesLE_lt n v
  | big =>
    intro b hb
    simp only [toBytesE, List.mem_reverse] at hb
    exact toBytesLE_lt n v b hb

theorem fromBytesLE_toBytesLE (n v : Nat) (h : v < 256 ^ n) :
    fromBytesLE (toBytesLE n v) = v := by
  induction n generalizing v with
  | zero =>
    simp only [Nat.pow_zero, Nat.lt_one_iff] at h
    simp [toBytesLE, fromBytesLE, h]
  | succ n ih =>
    have hdiv : v / 256 < 256 ^ n := by
      rw [Nat.div_lt_iff_lt_mul (by omega)]
      calc v < 256 ^ (n + 1) := h
        _ = 256 ^ n * 256 := by ring
    simp only [toBytesLE, fromBytesLE, ih (v / 256) hdiv]
    omega

theorem fromBytesE_toBytesE (e : Endianness) (n v : Nat) (h : v < 256 ^ n) :
    fromBytesE e (toBytesE e n v) = v := by
  cases e with
  | little => exact fromBytesLE_toBytesLE n v h
  | big =>
    simp only [fromBytesE, toBytesE, List.reverse_reverse]
    exact fromBytesLE_toBytesLE n v h

theorem fromBytesLE_lt (bs : List Nat) : fromBytesLE bs < 256 ^ bs.length := by
  induction bs with
  | nil => simp [fromBytesLE]
  | cons b bs ih =>
    simp only [fromBytesLE, List.length_cons, Nat.pow_succ]
    have hb : b % 256 < 256 := Nat.mod_lt _ (by omega)
    calc b % 256 + 256 * fromBytesLE bs < 256 + 256 * fromBytesLE bs := by omega
      _ ≤ 256 * (fromBytesLE bs + 1) := by ring_nf; omega
      _ ≤ 256 * 256 ^ bs.length := by
          exact Nat.mul_le_mul_left 256 (Nat.succ_le_of_lt ih)
      _ = 256 ^ bs.length * 256 := by ring

theorem fromBytesE_lt (e : Endianness) (bs : List Nat) : fromBytesE e bs < 256 ^ bs.length := by
  cases e with
  | little => exact fromBytesLE_lt bs
  | big =>
    have := fromBytesLE_lt bs.reverse
    simpa [fromBytesE] using this

theorem crcTable_lt (n : Nat) : crcTable n < 65536 := by
  unfold crcTable
  split <;> omega

theorem crcNibble_lt (crc nib : Nat) : crcNibble crc nib < 65536 := by
  have h1 : (crc / 16) % 0x1000 < 65536 := by
    have := Nat.mod_lt (crc / 16) (y := 0x1000) (by omega)
    omega
  have h2 := crcTable_lt (crc % 16)
  have h3 := crcTable_lt (nib % 16)
  have e : (65536 : Nat) = 2 ^ 16 := by norm_num
  rw [e] at h1 h2 h3 ⊢
  exact Nat.xor_lt_two_pow (Nat.xor_lt_two_pow h1 h2) h3

theorem fitCrc16Byte_lt (crc b : Nat) : fitCrc16Byte crc b < 65536 :=
  crcNibble_lt _ _

theorem fitCrc16_lt (bs : List Nat) : fitCrc16 bs < 65536 := by
  unfold fitCrc16
  have h : ∀ (l : List Nat) (acc : Nat), acc < 65536 → l.foldl fitCrc16Byte acc < 65536 := by
    intro l
    induction l with
    | nil => intro acc h; exact h
    | cons x xs ih => intro acc _; exact ih _ (fitCrc16Byte_lt acc x)
  exact h bs 0 (by omega)

theorem baseTypeOfCode_code (t : BaseType) : baseTypeOfCode t.code = t := by
  cases t <;> rfl

theorem BaseType.size_pos (t : BaseType) : 0 < t.size := by
  cases t <;> simp [BaseType.size]

theorem BaseType.invalidRaw_lt (t : BaseType) : t.invalidRaw < 256 ^ t.size := by
  cases t <;> simp [BaseType.invalidRaw, BaseType.size]

/-! ## Field-bag lemmas -/

theorem setAt_getD_self (vals : List Nat) (idx v inv d : Nat) :
    (setAt vals idx v inv).getD idx d = v := by
  unfold setAt
  rw [List.getD_eq_getElem?_getD]
  split
  case isTrue h =>
    rw [List.getElem?_set_self h]
    rfl
  case isFalse h =>
    have hlen : (vals ++ List.replicate (idx - vals.length) inv).length = idx := by
      simp only [List.length_append, List.length_replicate]
      omega
    rw [List.getElem?_append_right (le_of_eq hlen), hlen]
    simp

theorem setAt_length (vals : List Nat) (idx v inv : Nat) (h : vals.length ≤ idx) :
    (setAt vals idx v inv).length = idx + 1 := by
  unfold setAt
  rcases Nat.lt_or_ge idx vals.length with hlt | hge
  · omega
  · rw [if_neg (by omega)]
    simp only [List.length_append, List.length_replicate, List.length_cons, List.length_nil]
    omega

theorem setAt_getD_pad (vals : List Nat) (idx v inv d j : Nat)
    (h1 : vals.length ≤ j) (h2 : j < idx) :
    (setAt vals idx v inv).getD j d = inv := by
  unfold setAt
  rw [if_neg (by omega), List.getD_eq_getElem?_getD]
  have hlen : (vals ++ List.replicate (idx - vals.length) inv).length = idx := by
    simp only [List.length_append, List.length_replicate]
    omega
  rw [List.getElem?_append_left (by omega), List.getElem?_append_right h1,
    List.getElem?_replicate_of_lt (by omega)]
  rfl

theorem find?_setFieldIn (fs : List Field) (f : Nat) (t : BaseType) (idx v : Nat) :
    (setFieldIn fs f t idx v).find? (fun g => g.num == f) =
      some ⟨f, t,
        setAt (match fs.find? (fun g => g.num == f) with
               | none => []
               | some g => g.values) idx v t.invalidRaw⟩ := by
  induction fs with
  | nil =>
    simp [setFieldIn, List.find?]
  | cons f0 fs ih =>
    by_cases h : f0.num = f
    · simp only [setFieldIn, if_pos h]
      rw [List.find?_cons_of_pos _ (by simp [h]), List.find?_cons_of_pos _ (by simp [h])]
      simp [h]
    · simp only [setFieldIn, if_neg h]
      rw [List.find?_cons_of_neg _ (by simp [h]), List.find?_cons_of_neg _ (by simp [h])]
      exact ih

theorem find?_setFieldIn_other (fs : List Field) (f' : Nat) (t : BaseType) (idx v f : Nat)
    (h : f ≠ f') :
    (setFieldIn fs f' t idx v).find? (fun g => g.num == f) =
      fs.find? (fun g => g.num == f) := by
  induction fs with
  | nil =>
    simp only [setFieldIn]
    rw [List.find?_cons_of_neg _ (by simpa using Ne.symm h)]
  | cons f0 fs ih =>
    by_cases h0 : f0.num = f'
    · have hne : f0.num ≠ f := by omega
      simp only [setFieldIn, if_pos h0]
      rw [List.find?_cons_of_neg _ (by simp [hne]), List.find?_cons_of_neg _ (by simp [hne])]
    · simp only [setFieldIn, if_neg h0]
      by_cases hf : f0.num = f
      · rw [List.find?_cons_of_pos _ (by simp [hf]), List.find?_cons_of_pos _ (by simp [hf])]
      · rw [List.find?_cons_of_neg _ (by simp [hf]), List.find?_cons_of_neg _ (by simp [hf])]
        exact ih

theorem getRaw_setRaw_self (m : Mesg) (t : BaseType) (f idx v : Nat) :
    (m.setRaw t f idx v).getRaw t f idx = v := by
  unfold Mesg.getRaw Mesg.setRaw Mesg.findField
  simp only
  rw [find?_setFieldIn]
  simp only
  rw [setAt_getD_self]
  split
  case isTrue h => omega
  case isFalse h => rfl

theorem getRaw_setRaw_other (m : Mesg) (t t' : BaseType) (f f' idx idx' v : Nat)
    (h : f ≠ f') :
    (m.setRaw t' f' idx' v).getRaw t f idx = m.getRaw t f idx := by
  unfold Mesg.getRaw Mesg.setRaw Mesg.findField
  simp only
  rw [find?_setFieldIn_other _ _ _ _ _ _ h]

/-! ## Claim theorems on the field bag -/

/-- C5: reading an absent field, a stored invalid sentinel, or an array
index beyond the current length returns the target type's invalid value;
writing at an index beyond the current length extends the array to length
`idx + 1`, padding intermediate slots with the invalid sentinel and placing
the written value at the index. -/
theorem claim5 :
    (∀ (m : Mesg) (t : BaseType) (f i : Nat),
        m.findField f = none → m.getRaw t f i = t.invalidRaw) ∧
    (∀ (m : Mesg) (t : BaseType) (f i : Nat) (fld : Field),
        m.findField f = some fld →
        fld.values.getD i fld.type.invalidRaw = fld.type.invalidRaw →
        m.getRaw t f i = t.invalidRaw) ∧
    (∀ (m : Mesg) (t : BaseType) (f i : Nat) (fld : Field),
        m.findField f = some fld → fld.values.length ≤ i →
        m.getRaw t f i = t.invalidRaw) ∧
    (∀ (m : Mesg) (t : BaseType) (f i v : Nat) (fld : Field),
        m.fieldLength f ≤ i →
        (m.setRaw t f i v).findField f = some fld →
        fld.values.length = i + 1 ∧
        (∀ j, m.fieldLength f ≤ j → j < i → fld.values.getD j 0 = t.invalidRaw) ∧
        fld.values.getD i 0 = v) := by
  refine ⟨?_, ?_, ?_, ?_⟩
  · intro m t f i h
    unfold Mesg.getRaw
    rw [h]
  · intro m t f i fld h hsent
    unfold Mesg.getRaw
    rw [h]
    show (if fld.values.getD i fld.type.invalidRaw = fld.type.invalidRaw then t.invalidRaw
      else fld.values.getD i fld.type.invalidRaw) = t.invalidRaw
    rw [if_pos hsent]
  · intro m t f i fld h hlen
    unfold Mesg.getRaw
    rw [h]
    show (if fld.values.getD i fld.type.invalidRaw = fld.type.invalidRaw then t.invalidRaw
      else fld.values.getD i fld.type.invalidRaw) = t.invalidRaw
    rw [if_pos (List.getD_eq_default _ _ hlen)]
  · intro m t f i v fld hlen hfind
    replace hfind : (setFieldIn m.fields f t i v).find? (fun g => g.num == f) = some fld :=
      hfind
    rw [find?_setFieldIn] at hfind
    cases hm : m.fields.find? (fun g => g.num == f) with
    | none =>
      rw [hm] at hfind
      simp only [Option.some.injEq] at hfind
      subst hfind
      refine ⟨?_, ?_, ?_⟩
      · show (setAt [] i v t.invalidRaw).length = i + 1
        exact setAt_length _ _ _ _ (Nat.zero_le i)
      · intro j hj1 hj2
        show (setAt [] i v t.invalidRaw).getD j 0 = t.invalidRaw
        exact setAt_getD_pad _ _ _ _ _ _ (Nat.zero_le j) hj2
      · show (setAt [] i v t.invalidRaw).getD i 0 = v
        exact setAt_getD_self _ _ _ _ _
    | some g =>
      rw [hm] at hfind
      simp only [Option.some.injEq] at hfind
      subst hfind
      have hlg : m.fieldLength f = g.values.length := by
        simp [Mesg.fieldLength, Mesg.findField, hm]
      rw [hlg] at hlen
      refine ⟨?_, ?_, ?_⟩
      · show (setAt g.values i v t.invalidRaw).length = i + 1
        exact setAt_length _ _ _ _ hlen
      · intro j hj1 hj2
        rw [hlg] at hj1
        show (setAt g.values i v t.invalidRaw).getD j 0 = t.invalidRaw
        exact setAt_getD_pad _ _ _ _ _ _ hj1 hj2
      · show (setAt g.values i v t.invalidRaw).getD i 0 = v
        exact setAt_getD_self _ _ _ _ _

/-- Witness for C5 at concrete inputs. -/
theorem claim5_witness :
    ((⟨16, []⟩ : Mesg).findField 5 = none ∧ (⟨16, []⟩ : Mesg).getRaw .uint16 5 0 = 0xFFFF) ∧
    ((⟨16, [⟨5, .uint8, [0xFF]⟩]⟩ : Mesg).getRaw .uint16 5 0 = 0xFFFF) ∧
    ((⟨16, [⟨5, .uint8, [1]⟩]⟩ : Mesg).getRaw .uint8 5 3 = 0xFF) ∧
    (((⟨16, []⟩ : Mesg).setRaw .uint8 5 3 7).findField 5 = some ⟨5, .uint8, [255, 255, 255, 7]⟩ ∧
      ([255, 255, 255, 7] : List Nat).length = 3 + 1 ∧
      ([255, 255, 255, 7] : List Nat).getD 1 0 = BaseType.uint8.invalidRaw ∧
      ([255, 255, 255, 7] : List Nat).getD 3 0 = 7) := by
  refine ⟨⟨by rfl, claim5.1 ⟨16, []⟩ .uint16 5 0 (by rfl)⟩,
    claim5.2.1 ⟨16, [⟨5, .uint8, [0xFF]⟩]⟩ .uint16 5 0 ⟨5, .uint8, [0xFF]⟩ (by rfl) (by rfl),
    claim5.2.2.1 ⟨16, [⟨5, .uint8, [1]⟩]⟩ .uint8 5 3 ⟨5, .uint8, [1]⟩ (by rfl) (by decide),
    by rfl, by decide, ?_, ?_⟩
  · exact (claim5.2.2.2 ⟨16, []⟩ .uint8 5 3 7 ⟨5, .uint8, [255, 255, 255, 7]⟩
      (by decide) (by rfl)).2.1 1 (by decide) (by decide)
  · exact (claim5.2.2.2 ⟨16, []⟩ .uint8 5 3 7 ⟨5, .uint8, [255, 255, 255, 7]⟩
      (by decide) (by rfl)).2.2

/-- C8: setting a field of `HrmProfileMesg` and reading it back through the
matching getter returns the value written, for every value of the field's
declared type, for all five accessor pairs. -/
theorem claim8 (m : Mesg) (v1 v2 v3 v4 v5 : Nat)
    (_h1 : v1 < 65536) (_h2 : v2 < 256) (_h3 : v3 < 65536) (_h4 : v4 < 256)
    (_h5 : v5 < 256) :
    HrmProfileMesg.GetMessageIndex (HrmProfileMesg.SetMessageIndex m v1) = v1 ∧
    HrmProfileMesg.GetEnabled (HrmProfileMesg.SetEnabled m v2) = v2 ∧
    HrmProfileMesg.GetHrmAntId (HrmProfileMesg.SetHrmAntId m v3) = v3 ∧
    HrmProfileMesg.GetLogHrv (HrmProfileMesg.SetLogHrv m v4) = v4 ∧
    HrmProfileMesg.GetHrmAntIdTransType (HrmProfileMesg.SetHrmAntIdTransType m v5) = v5 :=
  ⟨getRaw_setRaw_self m .uint16 254 0 v1,
   getRaw_setRaw_self m .enum 0 0 v2,
   getRaw_setRaw_self m .uint16z 1 0 v3,
   getRaw_setRaw_self m .enum 2 0 v4,
   getRaw_setRaw_self m .uint8z 3 0 v5⟩

/-- Witness for C8 at concrete inputs. -/
theorem claim8_witness :
    (7 : Nat) < 65536 ∧ (1 : Nat) < 256 ∧ (4660 : Nat) < 65536 ∧ (0 : Nat) < 256 ∧
    (5 : Nat) < 256 ∧
    (HrmProfileMesg.GetMessageIndex (HrmProfileMesg.SetMessageIndex HrmProfileMesg.new 7) = 7 ∧
     HrmProfileMesg.GetEnabled (HrmProfileMesg.SetEnabled HrmProfileMesg.new 1) = 1 ∧
     HrmProfileMesg.GetHrmAntId (HrmProfileMesg.SetHrmAntId HrmProfileMesg.new 4660) = 4660 ∧
     HrmProfileMesg.GetLogHrv (HrmProfileMesg.SetLogHrv HrmProfileMesg.new 0) = 0 ∧
     HrmProfileMesg.GetHrmAntIdTransType
       (HrmProfileMesg.SetHrmAntIdTransType HrmProfileMesg.new 5) = 5) :=
  ⟨by decide, by decide, by decide, by decide, by decide,
   claim8 HrmProfileMesg.new 7 1 4660 0 5 (by decide) (by decide) (by decide) (by decide)
     (by decide)⟩

/-- C9: each setter of `HrmProfileMesg` modifies only its own field — after
any one setter runs, the getters of the other four fields are unchanged
(the five accessor pairs use the distinct field numbers 254, 0, 1, 2, 3). -/
theorem claim9 (m : Mesg) (v : Nat) :
    (HrmProfileMesg.GetEnabled (HrmProfileMesg.SetMessageIndex m v) =
      HrmProfileMesg.GetEnabled m) ∧
    (HrmProfileMesg.GetHrmAntId (HrmProfileMesg.SetMessageIndex m v) =
      HrmProfileMesg.GetHrmAntId m) ∧
    (HrmProfileMesg.GetLogHrv (HrmProfileMesg.SetMessageIndex m v) =
      HrmProfileMesg.GetLogHrv m) ∧
    (HrmProfileMesg.GetHrmAntIdTransType (HrmProfileMesg.SetMessageIndex m v) =
      HrmProfileMesg.GetHrmAntIdTransType m) ∧
    (HrmProfileMesg.GetMessageIndex (HrmProfileMesg.SetEnabled m v) =
      HrmProfileMesg.GetMessageIndex m) ∧
    (HrmProfileMesg.GetHrmAntId (HrmProfileMesg.SetEnabled m v) =
      HrmProfileMesg.GetHrmAntId m) ∧
    (HrmProfileMesg.GetLogHrv (HrmProfileMesg.SetEnabled m v) =
      HrmProfileMesg.GetLogHrv m) ∧
    (HrmProfileMesg.GetHrmAntIdTransType (HrmProfileMesg.SetEnabled m v) =
      HrmProfileMesg.GetHrmAntIdTransType m) ∧
    (HrmProfileMesg.GetMessageIndex (HrmProfileMesg.SetHrmAntId m v) =
      HrmProfileMesg.GetMessageIndex m) ∧
    (HrmProfileMesg.GetEnabled (HrmProfileMesg.SetHrmAntId m v) =
      HrmProfileMesg.GetEnabled m) ∧
    (HrmProfileMesg.GetLogHrv (HrmProfileMesg.SetHrmAntId m v) =
      HrmProfileMesg.GetLogHrv m) ∧
    (HrmProfileMesg.GetHrmAntIdTransType (HrmProfileMesg.SetHrmAntId m v) =
      HrmProfileMesg.GetHrmAntIdTransType m) ∧
    (HrmProfileMesg.GetMessageIndex (HrmProfileMesg.SetLogHrv m v) =
      HrmProfileMesg.GetMessageIndex m) ∧
    (HrmProfileMesg.GetEnabled (HrmProfileMesg.SetLogHrv m v) =
      HrmProfileMesg.GetEnabled m) ∧
    (HrmProfileMesg.GetHrmAntId (HrmProfileMesg.SetLogHrv m v) =
      HrmProfileMesg.GetHrmAntId m) ∧
    (HrmProfileMesg.GetHrmAntIdTransType (HrmProfileMesg.SetLogHrv m v) =
      HrmProfileMesg.GetHrmAntIdTransType m) ∧
    (HrmProfileMesg.GetMessageIndex (HrmProfileMesg.SetHrmAntIdTransType m v) =
      HrmProfileMesg.GetMessageIndex m) ∧
    (HrmProfileMesg.GetEnabled (HrmProfileMesg.SetHrmAntIdTransType m v) =
      HrmProfileMesg.GetEnabled m) ∧
    (HrmProfileMesg.GetHrmAntId (HrmProfileMesg.SetHrmAntIdTransType m v) =
      HrmProfileMesg.GetHrmAntId m) ∧
    (HrmProfileMesg.GetLogHrv (HrmProfileMesg.SetHrmAntIdTransType m v) =
      HrmProfileMesg.GetLogHrv m) :=
  ⟨getRaw_setRaw_other m .enum .uint16 0 254 0 0 v (by decide),
   getRaw_setRaw_other m .uint16z .uint16 1 254 0 0 v (by decide),
   getRaw_setRaw_other m .enum .uint16 2 254 0 0 v (by decide),
   getRaw_setRaw_other m .uint8z .uint16 3 254 0 0 v (by decide),
   getRaw_setRaw_other m .uint16 .enum 254 0 0 0 v (by decide),
   getRaw_setRaw_other m .uint16z .enum 1 0 0 0 v (by decide),
   getRaw_setRaw_other m .enum .enum 2 0 0 0 v (by decide),
   getRaw_setRaw_other m .uint8z .enum 3 0 0 0 v (by decide),
   getRaw_setRaw_other m .uint16 .uint16z 254 1 0 0 v (by decide),
   getRaw_setRaw_other m .enum .uint16z 0 1 0 0 v (by decide),
   getRaw_setRaw_other m .enum .uint16z 2 1 0 0 v (by decide),
   getRaw_setRaw_other m .uint8z .uint16z 3 1 0 0 v (by decide),
   getRaw_setRaw_other m .uint16 .enum 254 2 0 0 v (by decide),
   getRaw_setRaw_other m .enum .enum 0 2 0 0 v (by decide),
   getRaw_setRaw_other m .uint16z .enum 1 2 0 0 v (by decide),
   getRaw_setRaw_other m .uint8z .enum 3 2 0 0 v (by decide),
   getRaw_setRaw_other m .uint16 .uint8z 254 3 0 0 v (by decide),
   getRaw_setRaw_other m .enum .uint8z 0 3 0 0 v (by decide),
   getRaw_setRaw_other m .uint16z .uint8z 1 3 0 0 v (by decide),
   getRaw_setRaw_other m .enum .uint8z 2 3 0 0 v (by decide)⟩

/-- C10: a default-constructed `HrmProfileMesg` has global message number
`MESG_HRM_PROFILE`, contains no fields, and each of its five getters
returns the invalid sentinel of its return type. -/
theorem claim10 :
    HrmProfileMesg.new.num = Profile.MESG_HRM_PROFILE ∧
    HrmProfileMesg.new.fields = [] ∧
    HrmProfileMesg.GetMessageIndex HrmProfileMesg.new = 0xFFFF ∧
    HrmProfileMesg.GetEnabled HrmProfileMesg.new = 0xFF ∧
    HrmProfileMesg.GetHrmAntId HrmProfileMesg.new = 0 ∧
    HrmProfileMesg.GetLogHrv HrmProfileMesg.new = 0xFF ∧
    HrmProfileMesg.GetHrmAntIdTransType HrmProfileMesg.new = 0 :=
  ⟨rfl, rfl, rfl, rfl, rfl, rfl, rfl⟩

/-- C2 counterexample: for the `uint8` field with scale 2 and offset 0,
writing the physical value 255/2 stores the raw value 255 — the `uint8`
invalid sentinel — so reading it back returns the invalid value 255, which
is not within 1/2 of 255/2.  The claim as stated is therefore false. -/
theorem claim2_cex :
    (2 : ℚ) ≠ 1 ∧
    (HrmProfileMesg.new.setScaled .uint8 10 0 2 0 (255 / 2)).getScaled .uint8 10 0 2 0 = 255 ∧
    ¬|(255 : ℚ) - 255 / 2| ≤ 1 / 2 := by
  refine ⟨by norm_num, ?_, ?_⟩
  · have hw : storeRaw .uint8 (writeRaw 2 0 (255 / 2 : ℚ)) = 255 := by
      unfold writeRaw storeRaw
      rw [show ((255 : ℚ) / 2 + 0) * 2 = ((255 : ℤ) : ℚ) by norm_num, round_intCast]
      rfl
    unfold Mesg.getScaled Mesg.setScaled
    rw [hw, getRaw_setRaw_self]
    simp [readPhysical, BaseType.invalidRaw]
  · rw [show (255 : ℚ) - 255 / 2 = 255 / 2 by norm_num, abs_of_pos (by norm_num)]
    norm_num

/-- C2 as amended: the read path applies `physical = raw/scale − offset`
and the write path its rounded inverse, neither when the raw value is the
invalid sentinel; consequently, whenever the rounded raw value is
representable in the base type's width and differs from the invalid
sentinel, writing a physical value `v` and reading it back yields a value
within `1/s` of `v` (for positive scale `s`). -/
theorem claim2_amended (m : Mesg) (t : BaseType) (f i : Nat) (s o v : ℚ)
    (hs : 0 < s) (_hso : s ≠ 1 ∨ o ≠ 0)
    (h0 : 0 ≤ writeRaw s o v) (hlt : writeRaw s o v < (256 ^ t.size : ℤ))
    (hsent : (writeRaw s o v).toNat ≠ t.invalidRaw) :
    |(m.setScaled t f i s o v).getScaled t f i s o - v| ≤ 1 / s := by
  have hstore : storeRaw t (writeRaw s o v) = (writeRaw s o v).toNat := by
    unfold storeRaw
    rw [Int.emod_eq_of_lt h0 hlt]
  unfold Mesg.getScaled Mesg.setScaled
  rw [hstore, getRaw_setRaw_self]
  unfold readPhysical
  rw [if_neg hsent]
  have hcast : (((writeRaw s o v).toNat : Nat) : ℚ) = ((writeRaw s o v : ℤ) : ℚ) := by
    exact_mod_cast congrArg (fun z : ℤ => (z : ℚ)) (Int.toNat_of_nonneg h0)
  rw [hcast]
  unfold writeRaw
  have hxs : ((v + o) * s) / s = v + o := mul_div_cancel_right₀ _ hs.ne'
  have heq : ((round ((v + o) * s) : ℤ) : ℚ) / s - o - v =
      (((round ((v + o) * s) : ℤ) : ℚ) - (v + o) * s) / s := by
    rw [sub_div, hxs]
    ring
  rw [heq, abs_div, abs_of_pos hs]
  have h1 : |((round ((v + o) * s) : ℤ) : ℚ) - (v + o) * s| ≤ 1 / 2 := by
    rw [abs_sub_comm]
    exact abs_sub_round _
  calc |((round ((v + o) * s) : ℤ) : ℚ) - (v + o) * s| / s ≤ (1 / 2) / s :=
        (div_le_div_iff_of_pos_right hs).mpr h1
    _ ≤ 1 / s := (div_le_div_iff_of_pos_right hs).mpr (by norm_num)

/-- Witness for C2 as amended, at concrete inputs. -/
theorem claim2_witness :
    (0 : ℚ) < 10 ∧ ((10 : ℚ) ≠ 1 ∨ (0 : ℚ) ≠ 0) ∧
    0 ≤ writeRaw 10 0 (7 / 2) ∧ writeRaw 10 0 (7 / 2) < (256 ^ BaseType.uint16.size : ℤ) ∧
    (writeRaw 10 0 (7 / 2)).toNat ≠ BaseType.uint16.invalidRaw ∧
    |(HrmProfileMesg.new.setScaled .uint16 0 0 10 0 (7 / 2)).getScaled .uint16 0 0 10 0 -
      7 / 2| ≤ 1 / 10 := by
  have hw : writeRaw 10 0 (7 / 2 : ℚ) = 35 := by
    unfold writeRaw
    rw [show ((7 : ℚ) / 2 + 0) * 10 = ((35 : ℤ) : ℚ) by norm_num, round_intCast]
  refine ⟨by norm_num, Or.inl (by norm_num), by rw [hw]; norm_num, by rw [hw]; decide,
    by rw [hw]; decide,
    claim2_amended HrmProfileMesg.new .uint16 0 0 10 0 (7 / 2) (by norm_num)
      (Or.inl (by norm_num)) (by rw [hw]; norm_num) (by rw [hw]; decide) (by rw [hw]; decide)⟩

/-! ## Serialization round-trip lemmas -/

theorem arch_round (e : Endianness) :
    (if archByte e % 256 = 1 then Endianness.big else Endianness.little) = e := by
  cases e <;> rfl

theorem length_flatMap_toBytes (e : Endianness) (w : Nat) (vs : List Nat) :
    (vs.flatMap (fun v => toBytesE e w v)).length = vs.length * w := by
  induction vs with
  | nil => simp
  | cons v vs ih =>
    simp only [List.flatMap_cons, List.length_append, length_toBytesE, ih, List.length_cons]
    ring

theorem length_defTriples (fds : List FieldDef) :
    (fds.flatMap (fun fd => [fd.num % 256, fd.size % 256, fd.type.code])).length =
      3 * fds.length := by
  induction fds with
  | nil => simp
  | cons fd fds ih =>
    simp only [List.flatMap_cons, List.length_append, List.length_cons, List.length_nil, ih]
    omega

theorem flatMap_length_le {α : Type} (g : α → List Nat) (l : List α) (c : Nat)
    (h : ∀ x ∈ l, (g x).length ≤ c) : (l.flatMap g).length ≤ c * l.length := by
  induction l with
  | nil => simp
  | cons x xs ih =>
    simp only [List.flatMap_cons, List.length_append, List.length_cons]
    have h1 := h x (List.mem_cons_self _ _)
    have h2 := ih (fun y hy => h y (List.mem_cons_of_mem _ hy))
    rw [Nat.mul_succ]
    omega

theorem readValues_encode (e : Endianness) (w : Nat) (vs : List Nat)
    (hv : ∀ v ∈ vs, v < 256 ^ w) (rest : List Nat) :
    readValues e w vs.length (vs.flatMap (fun v => toBytesE e w v) ++ rest) = vs := by
  induction vs with
  | nil => rfl
  | cons v vs ih =>
    simp only [List.flatMap_cons, List.length_cons, List.append_assoc]
    simp only [readValues]
    rw [List.take_left' (length_toBytesE e w v), List.drop_left' (length_toBytesE e w v),
      fromBytesE_toBytesE e w v (hv v (List.mem_cons_self _ _)),
      ih (fun x hx => hv x (List.mem_cons_of_mem _ hx))]

theorem parseFields_encode (e : Endianness) (fs : List Field) (rest : List Nat)
    (h : ∀ f ∈ fs, FieldWF f) :
    parseFields e
      (fs.map (fun f => (⟨f.num, f.values.length * f.type.size, f.type⟩ : FieldDef)))
      (fs.flatMap (fun f => f.values.flatMap (fun v => toBytesE e f.type.size v)) ++ rest) =
      some (fs, rest) := by
  induction fs with
  | nil => rfl
  | cons f fs ih =>
    obtain ⟨hnum, hsize, hvals⟩ := h f (List.mem_cons_self _ _)
    have hw : 0 < f.type.size := BaseType.size_pos _
    have hplen : (f.values.flatMap (fun v => toBytesE e f.type.size v)).length =
        f.values.length * f.type.size := length_flatMap_toBytes e f.type.size f.values
    simp only [List.map_cons, List.flatMap_cons, List.append_assoc]
    simp only [parseFields]
    rw [if_pos (by rw [List.length_append, hplen]; omega)]
    rw [List.drop_left' hplen, ih (fun g hg => h g (List.mem_cons_of_mem _ hg)),
      Nat.mul_div_cancel _ hw,
      readValues_encode e f.type.size f.values hvals _]

theorem parseFieldDefs_encode (fds : List FieldDef) (rest : List Nat)
    (h : ∀ fd ∈ fds, fd.num < 256 ∧ fd.size < 256) :
    parseFieldDefs fds.length
      (fds.flatMap (fun fd => [fd.num % 256, fd.size % 256, fd.type.code]) ++ rest) =
      some (fds, rest) := by
  induction fds with
  | nil => rfl
  | cons fd fds ih =>
    obtain ⟨hnum, hsize⟩ := h fd (List.mem_cons_self _ _)
    simp only [List.flatMap_cons, List.length_cons, List.cons_append, List.append_assoc,
      List.nil_append]
    simp only [parseFieldDefs]
    rw [ih (fun g hg => h g (List.mem_cons_of_mem _ hg))]
    have h1 : fd.num % 256 % 256 = fd.num := by omega
    have h2 : fd.size % 256 % 256 = fd.size := by omega
    rw [h1, h2, baseTypeOfCode_code]

/-! ## Well-formedness of parsed data -/

theorem readValues_length (e : Endianness) (w n : Nat) (bs : List Nat) :
    (readValues e w n bs).length = n := by
  induction n generalizing bs with
  | zero => rfl
  | succ n ih => simp [readValues, ih]

theorem readValues_lt (e : Endianness) (w n : Nat) (bs : List Nat) :
    ∀ v ∈ readValues e w n bs, v < 256 ^ w := by
  induction n generalizing bs with
  | zero => simp [readValues]
  | succ n ih =>
    intro v hv
    simp only [readValues, List.mem_cons] at hv
    rcases hv with h | h
    · subst h
      calc fromBytesE e (bs.take w) < 256 ^ (bs.take w).length := fromBytesE_lt _ _
        _ ≤ 256 ^ w := Nat.pow_le_pow_right (by omega) (by rw [List.length_take]; omega)
    · exact ih _ v h

theorem parseFieldDefs_wf (n : Nat) (bs : List Nat) (fds : List FieldDef) (rest : List Nat)
    (h : parseFieldDefs n bs = some (fds, rest)) :
    fds.length = n ∧ ∀ fd ∈ fds, fd.num < 256 ∧ fd.size < 256 := by
  induction n generalizing bs fds rest with
  | zero =>
    simp only [parseFieldDefs, Option.some.injEq, Prod.mk.injEq] at h
    obtain ⟨h1, _⟩ := h
    subst h1
    exact ⟨rfl, by simp⟩
  | succ n ih =>
    rcases bs with _ | ⟨b1, _ | ⟨b2, _ | ⟨b3, bs⟩⟩⟩
    · exact absurd h (by simp [parseFieldDefs])
    · exact absurd h (by simp [parseFieldDefs])
    · exact absurd h (by simp [parseFieldDefs])
    · simp only [parseFieldDefs] at h
      cases hp : parseFieldDefs n bs with
      | none => rw [hp] at h; exact absurd h (by simp)
      | some p =>
        obtain ⟨fds', rest'⟩ := p
        rw [hp] at h
        simp only [Option.some.injEq, Prod.mk.injEq] at h
        obtain ⟨h1, -⟩ := h
        obtain ⟨hl, hb⟩ := ih bs fds' rest' hp
        subst h1
        refine ⟨by simp [hl], ?_⟩
        intro fd hfd
        rcases List.mem_cons.mp hfd with h | h
        · subst h
          exact ⟨Nat.mod_lt _ (by omega), Nat.mod_lt _ (by omega)⟩
        · exact hb fd h

theorem parseFields_wf (e : Endianness) (fds : List FieldDef) (bs : List Nat)
    (fs : List Field) (rest : List Nat)
    (hfd : ∀ fd ∈ fds, fd.num < 256 ∧ fd.size < 256)
    (h : parseFields e fds bs = some (fs, rest)) :
    fs.length = fds.length ∧ ∀ f ∈ fs, FieldWF f := by
  induction fds generalizing bs fs rest with
  | nil =>
    simp only [parseFields, Option.some.injEq, Prod.mk.injEq] at h
    obtain ⟨h1, _⟩ := h
    subst h1
    exact ⟨rfl, by simp⟩
  | cons fd fds ih =>
    simp only [parseFields] at h
    by_cases hle : fd.size ≤ bs.length
    · rw [if_pos hle] at h
      cases hp : parseFields e fds (bs.drop fd.size) with
      | none => rw [hp] at h; exact absurd h (by simp)
      | some p =>
        obtain ⟨fs', rest'⟩ := p
        rw [hp] at h
        simp only [Option.some.injEq, Prod.mk.injEq] at h
        obtain ⟨h1, -⟩ := h
        obtain ⟨hnum, hsize⟩ := hfd fd (List.mem_cons_self _ _)
        obtain ⟨hl, hb⟩ :=
          ih (bs.drop fd.size) fs' rest' (fun g hg => hfd g (List.mem_cons_of_mem _ hg)) hp
        subst h1
        refine ⟨by simp [hl], ?_⟩
        intro f hf
        rcases List.mem_cons.mp hf with h | h
        · subst h
          refine ⟨hnum, ?_, readValues_lt e fd.type.size _ bs⟩
          rw [readValues_length]
          calc fd.size / fd.type.size * fd.type.size ≤ fd.size := Nat.div_mul_le_self _ _
            _ ≤ 255 := by omega
        · exact hb f h
    · rw [if_neg hle] at h
      exact absurd h (by simp)

/-! ## Record-parse shape lemmas -/

theorem parseDataRecord_undefined_iff (tbl : Table) (slot : Nat) (bytes : List Nat) :
    parseDataRecord tbl slot bytes = .error .undefinedLocalType ↔ tbl slot = none := by
  unfold parseDataRecord
  cases h : tbl slot with
  | none => simp
  | some d =>
    cases h2 : parseFields d.endian d.fieldDefs bytes with
    | none => simp [h2]
    | some p =>
      obtain ⟨fs, r⟩ := p
      simp [h2]

theorem parseDataRecord_ok_defined (tbl : Table) (slot : Nat) (bytes : List Nat)
    (m? : Option Mesg) (tbl' : Table) (rest : List Nat)
    (h : parseDataRecord tbl slot bytes = .ok (m?, tbl', rest)) :
    ∃ d, tbl slot = some d := by
  revert h
  unfold parseDataRecord
  cases h : tbl slot with
  | none => intro hcontra; exact absurd hcontra (by simp)
  | some d =>
    intro _
    exact ⟨d, rfl⟩

theorem parseDefRecord_cases (tbl : Table) (slot : Nat) (dev : Bool) (bytes : List Nat) :
    parseDefRecord tbl slot dev bytes = .error .shortRead ∨
    ∃ d rest, parseDefRecord tbl slot dev bytes =
      .ok (none, Function.update tbl slot (some d), rest) ∧ DefWF d := by
  rcases bytes with _ | ⟨b1, _ | ⟨b2, _ | ⟨b3, _ | ⟨b4, _ | ⟨b5, rest⟩⟩⟩⟩⟩
  · left; rfl
  · left; rfl
  · left; rfl
  · left; rfl
  · left; rfl
  · simp only [parseDefRecord]
    cases hp : parseFieldDefs (b5 % 256) rest with
    | none => left; simp [hp]
    | some p =>
      obtain ⟨fds, rest2⟩ := p
      obtain ⟨hfl, hfb⟩ := parseFieldDefs_wf _ _ _ _ hp
      have hdwf : DefWF ⟨(if b2 % 256 = 1 then Endianness.big else Endianness.little),
          fromBytesE (if b2 % 256 = 1 then Endianness.big else Endianness.little) [b3, b4],
          fds⟩ := by
        refine ⟨?_, ?_, hfb⟩
        · have hl2 :=
            fromBytesE_lt (if b2 % 256 = 1 then Endianness.big else Endianness.little) [b3, b4]
          have he : ([b3, b4] : List Nat).length = 2 := rfl
          rw [he] at hl2
          have hp2 : (256 : Nat) ^ 2 = 65536 := by norm_num
          rw [hp2] at hl2
          exact hl2
        · simp only
          omega
      cases dev with
      | false =>
        right
        refine ⟨⟨(if b2 % 256 = 1 then Endianness.big else Endianness.little),
          fromBytesE (if b2 % 256 = 1 then Endianness.big else Endianness.little) [b3, b4],
          fds⟩, rest2, ?_, hdwf⟩
        simp [hp]
      | true =>
        cases rest2 with
        | nil => left; simp [hp]
        | cons dc r2 =>
          cases hd : dropN? (3 * (dc % 256)) r2 with
          | none => left; simp [hp, hd]
          | some rest3 =>
            right
            refine ⟨⟨(if b2 % 256 = 1 then Endianness.big else Endianness.little),
              fromBytesE (if b2 % 256 = 1 then Endianness.big else Endianness.little) [b3, b4],
              fds⟩, rest3, ?_, hdwf⟩
            simp [hp, hd]

/-! ## C3, C4, C6 -/

/-- C3: a record parse raises `UndefinedLocalType` exactly when the record
header denotes a Data record whose local-message-type slot holds no
definition, and every successfully emitted Data record was decoded from a
slot holding a previously installed definition. -/
theorem claim3 (tbl : Table) (b : Nat) (bytes : List Nat) :
    (parseRecord tbl (b :: bytes) = .error .undefinedLocalType ↔
      headerIsData b = true ∧ tbl (headerSlot b) = none) ∧
    (∀ (m : Mesg) (tbl' : Table) (rest : List Nat),
      parseRecord tbl (b :: bytes) = .ok (some m, tbl', rest) →
      headerIsData b = true ∧ ∃ d, tbl (headerSlot b) = some d) := by
  have hrec : parseRecord tbl (b :: bytes) =
      (if b % 256 ≥ 0x80 then parseDataRecord tbl (b % 256 / 32 % 4) bytes
       else if b % 256 &&& 0x40 ≠ 0 then
         parseDefRecord tbl (b % 256 % 16) (b % 256 &&& 0x20 != 0) bytes
       else parseDataRecord tbl (b % 256 % 16) bytes) := rfl
  by_cases h1 : b % 256 ≥ 0x80
  · have hslot : headerSlot b = b % 256 / 32 % 4 := by unfold headerSlot; rw [if_pos h1]
    have hdata : headerIsData b = true := by unfold headerIsData; simp [h1]
    rw [hrec, if_pos h1, hslot, hdata]
    constructor
    · rw [parseDataRecord_undefined_iff]
      simp
    · intro m tbl' rest hok
      obtain ⟨d, hd⟩ := parseDataRecord_ok_defined _ _ _ _ _ _ hok
      exact ⟨rfl, d, hd⟩
  · by_cases h2 : b % 256 &&& 0x40 ≠ 0
    · have hdata : headerIsData b = false := by
        unfold headerIsData
        simp only [Bool.or_eq_false_iff]
        constructor
        · simp [h1]
        · simp [h2]
      rw [hrec, if_neg h1, if_pos h2, hdata]
      constructor
      · rcases parseDefRecord_cases tbl (b % 256 % 16) (b % 256 &&& 0x20 != 0) bytes with
          hc | ⟨d, rest, hc, -⟩
        · rw [hc]; simp
        · rw [hc]; simp
      · intro m tbl' rest hok
        rcases parseDefRecord_cases tbl (b % 256 % 16) (b % 256 &&& 0x20 != 0) bytes with
          hc | ⟨d, rest2, hc, -⟩
        · rw [hc] at hok; exact absurd hok (by simp)
        · rw [hc] at hok
          simp only [Except.ok.injEq, Prod.mk.injEq] at hok
          exact absurd hok.1 (by simp)
    · have hslot : headerSlot b = b % 256 % 16 := by unfold headerSlot; rw [if_neg h1]
      have hdata : headerIsData b = true := by
        unfold headerIsData
        simp only [ne_eq, not_not] at h2
        simp [h2]
      rw [hrec, if_neg h1, if_neg h2, hslot, hdata]
      constructor
      · rw [parseDataRecord_undefined_iff]
        simp
      · intro m tbl' rest hok
        obtain ⟨d, hd⟩ := parseDataRecord_ok_defined _ _ _ _ _ _ hok
        exact ⟨rfl, d, hd⟩

/-- Witness for C3 at a concrete input: header byte 0 is a Data record
addressing slot 0 of the empty table, so parsing raises
`UndefinedLocalType`. -/
theorem claim3_witness :
    headerIsData 0 = true ∧ emptyTable (headerSlot 0) = none ∧
    parseRecord emptyTable [0] = .error .undefinedLocalType :=
  ⟨by decide, rfl, (claim3 emptyTable 0 []).1.mpr ⟨by decide, rfl⟩⟩

/-- C4: installing a Definition record replaces the prior binding of its
local slot and leaves every other slot unchanged (the table becomes a
point update), and decoding a Data record depends on the table only
through the addressed slot's current binding — hence Data records decode
against the latest Definition installed at their slot. -/
theorem claim4 :
    (∀ (tbl : Table) (slot : Nat) (dev : Bool) (bytes : List Nat) (m? : Option Mesg)
        (tbl' : Table) (rest : List Nat),
      parseDefRecord tbl slot dev bytes = .ok (m?, tbl', rest) →
      m? = none ∧ ∃ d, tbl' = Function.update tbl slot (some d)) ∧
    (∀ (t1 t2 : Table) (slot : Nat) (bytes : List Nat),
      t1 slot = t2 slot →
      mesgPart (parseDataRecord t1 slot bytes) = mesgPart (parseDataRecord t2 slot bytes)) := by
  constructor
  · intro tbl slot dev bytes m? tbl' rest hok
    rcases parseDefRecord_cases tbl slot dev bytes with hc | ⟨d, rest2, hc, -⟩
    · rw [hc] at hok
      exact absurd hok (by simp)
    · rw [hc] at hok
      simp only [Except.ok.injEq, Prod.mk.injEq] at hok
      exact ⟨hok.1.symm, d, hok.2.1.symm⟩
  · intro t1 t2 slot bytes h
    unfold parseDataRecord
    rw [h]
    cases h2 : t2 slot with
    | none => rfl
    | some d =>
      cases h3 : parseFields d.endian d.fieldDefs bytes with
      | none => simp [h3, mesgPart]
      | some p =>
        obtain ⟨fs, r⟩ := p
        simp only [h3, mesgPart]
        rfl

/-- Witness for C4 at concrete inputs: a Definition record for global
message 16 with no fields installed at slot 3, and a Data record decoded
against two tables agreeing at slot 0. -/
theorem claim4_witness :
    (parseDefRecord emptyTable 3 false [0, 0, 16, 0, 0] =
        .ok (none, Function.update emptyTable 3 (some ⟨.little, 16, []⟩), []) ∧
      ∃ d, Function.update emptyTable 3 (some ⟨.little, 16, []⟩) =
        Function.update emptyTable 3 (some d)) ∧
    (emptyTable 0 = Function.update emptyTable 1 (some ⟨.little, 16, []⟩) 0 ∧
      mesgPart (parseDataRecord emptyTable 0 []) =
        mesgPart (parseDataRecord (Function.update emptyTable 1 (some ⟨.little, 16, []⟩)) 0 [])) := by
  have hp : parseDefRecord emptyTable 3 false [0, 0, 16, 0, 0] =
      .ok (none, Function.update emptyTable 3 (some ⟨.little, 16, []⟩), []) := by rfl
  have h0 : emptyTable 0 = Function.update emptyTable 1 (some ⟨.little, 16, []⟩) 0 := by
    simp [emptyTable, Function.update]
  exact ⟨⟨hp, (claim4.1 emptyTable 3 false [0, 0, 16, 0, 0] none _ [] hp).2⟩,
    h0, claim4.2 emptyTable (Function.update emptyTable 1 (some ⟨.little, 16, []⟩)) 0 [] h0⟩

/-- C6: the encoded byte stream is a pure function of the bag sequence and
the chosen endianness; on a cache hit the encoder emits only the Data
record (Definition records are emitted lazily), and on a miss it emits the
Definition record, whose field triples follow the bag's field order,
followed by the Data record. -/
theorem claim6 :
    (∀ (e e' : Endianness) (bags bags' : List Mesg), e = e' → bags = bags' →
      encodeFile e bags = encodeFile e' bags') ∧
    (∀ (e : Endianness) (st : EncState) (m : Mesg) (slot : Nat),
      lookupKey st m.num (layoutOf m) = some slot →
      (encodeStep e st m).2 = dataRecord e slot m) ∧
    (∀ (e : Endianness) (st : EncState) (m : Mesg),
      lookupKey st m.num (layoutOf m) = none →
      (encodeStep e st m).2 =
        defRecord e (allocSlot st) m.num (layoutOf m) ++ dataRecord e (allocSlot st) m) := by
  refine ⟨?_, ?_, ?_⟩
  · intro e e' bags bags' he hb
    rw [he, hb]
  · intro e st m slot h
    unfold encodeStep
    rw [h]
  · intro e st m h
    unfold encodeStep
    rw [h]

/-- Witness for C6 at concrete inputs. -/
theorem claim6_witness :
    encodeFile .little [] = encodeFile .little [] ∧
    (lookupKey ⟨[(0, 16, [])]⟩ 16 (layoutOf ⟨16, []⟩) = some 0 ∧
      (encodeStep .little ⟨[(0, 16, [])]⟩ ⟨16, []⟩).2 = dataRecord .little 0 ⟨16, []⟩) ∧
    (lookupKey encInit 16 (layoutOf ⟨16, []⟩) = none ∧
      (encodeStep .little encInit ⟨16, []⟩).2 =
        defRecord .little (allocSlot encInit) 16 (layoutOf ⟨16, []⟩) ++
          dataRecord .little (allocSlot encInit) ⟨16, []⟩) :=
  ⟨claim6.1 .little .little [] [] rfl rfl,
   ⟨rfl, claim6.2.1 .little ⟨[(0, 16, [])]⟩ ⟨16, []⟩ 0 rfl⟩,
   ⟨rfl, claim6.2.2 .little encInit ⟨16, []⟩ rfl⟩⟩

/-! ## Whole-file decoding of a well-formed single file -/

theorem decodeOne_good (pv p1 p2 s1 s2 s3 s4 : Nat) (recs : List Nat) (msgs : List Mesg)
    (hpv : pv % 256 / 16 ≤ 2)
    (hsize : fromBytesLE [s1, s2, s3, s4] = recs.length)
    (hrec : decodeRecords recs.length emptyTable [] recs = .ok msgs) :
    decodeOne (12 :: pv :: p1 :: p2 :: s1 :: s2 :: s3 :: s4 :: 0x2E :: 0x46 :: 0x49 :: 0x54 ::
      (recs ++ toBytesLE 2 (fitCrc16 (12 :: pv :: p1 :: p2 :: s1 :: s2 :: s3 :: s4 ::
        0x2E :: 0x46 :: 0x49 :: 0x54 :: recs)))) = .ok (msgs, []) := by
  have hclen : (toBytesLE 2 (fitCrc16 (12 :: pv :: p1 :: p2 :: s1 :: s2 :: s3 :: s4 ::
      0x2E :: 0x46 :: 0x49 :: 0x54 :: recs))).length = 2 := length_toBytesLE _ _
  simp only [decodeOne]
  rw [if_pos trivial]
  rw [if_neg (show ¬pv % 256 / 16 > 2 by omega)]
  rw [if_pos trivial]
  rw [hsize]
  unfold decodeBody
  rw [if_pos (by rw [List.length_append, hclen])]
  rw [List.take_left' rfl, hrec]
  rw [List.drop_left' rfl]
  rw [List.take_of_length_le (le_of_eq hclen)]
  rw [fromBytesLE_toBytesLE 2 _ (by
    have := fitCrc16_lt (12 :: pv :: p1 :: p2 :: s1 :: s2 :: s3 :: s4 ::
      0x2E :: 0x46 :: 0x49 :: 0x54 :: recs)
    norm_num
    omega)]
  have htake : (12 :: pv :: p1 :: p2 :: s1 :: s2 :: s3 :: s4 ::
      0x2E :: 0x46 :: 0x49 :: 0x54 ::
      (recs ++ toBytesLE 2 (fitCrc16 (12 :: pv :: p1 :: p2 :: s1 :: s2 :: s3 :: s4 ::
        0x2E :: 0x46 :: 0x49 :: 0x54 :: recs)))).take (12 + recs.length) =
      12 :: pv :: p1 :: p2 :: s1 :: s2 :: s3 :: s4 ::
        0x2E :: 0x46 :: 0x49 :: 0x54 :: recs := by
    rw [show (12 :: pv :: p1 :: p2 :: s1 :: s2 :: s3 :: s4 ::
        0x2E :: 0x46 :: 0x49 :: 0x54 ::
        (recs ++ toBytesLE 2 (fitCrc16 (12 :: pv :: p1 :: p2 :: s1 :: s2 :: s3 :: s4 ::
          0x2E :: 0x46 :: 0x49 :: 0x54 :: recs)))) =
      [12, pv, p1, p2, s1, s2, s3, s4, 0x2E, 0x46, 0x49, 0x54] ++
        (recs ++ toBytesLE 2 (fitCrc16 (12 :: pv :: p1 :: p2 :: s1 :: s2 :: s3 :: s4 ::
          0x2E :: 0x46 :: 0x49 :: 0x54 :: recs))) from rfl]
    rw [List.take_append_eq_append_take]
    rw [List.take_of_length_le (by simp)]
    have h12 : ([12, pv, p1, p2, s1, s2, s3, s4, 0x2E, 0x46, 0x49, 0x54] : List Nat).length =
        12 := by simp
    rw [h12]
    rw [show 12 + recs.length - 12 = recs.length by omega]
    rw [List.take_left' rfl]
    rfl
  rw [htake]
  simp only [List.drop_eq_nil_of_le (le_of_eq hclen)]
  rw [if_pos trivial]

/-- C7: the 14-byte input made of a 12-byte header with `dataSize = 0`
followed by the 2-byte CRC decodes to no records and terminates cleanly
(for any supported protocol version and profile version bytes). -/
theorem claim7 (pv p1 p2 : Nat) (hpv : pv % 256 / 16 ≤ 2) :
    decode ([12, pv, p1, p2, 0, 0, 0, 0, 0x2E, 0x46, 0x49, 0x54] ++
      toBytesLE 2 (fitCrc16 [12, pv, p1, p2, 0, 0, 0, 0, 0x2E, 0x46, 0x49, 0x54])) =
      .ok [] := by
  have h1 := decodeOne_good pv p1 p2 0 0 0 0 [] [] hpv (by rfl) (by rfl)
  simp only [List.append_nil, List.nil_append] at h1
  have hlen : (([12, pv, p1, p2, 0, 0, 0, 0, 0x2E, 0x46, 0x49, 0x54] : List Nat) ++
      toBytesLE 2 (fitCrc16 [12, pv, p1, p2, 0, 0, 0, 0, 0x2E, 0x46, 0x49, 0x54])).length =
      14 := by
    rw [List.length_append, length_toBytesLE]
    rfl
  unfold decode
  rw [hlen]
  simp only [decodeFiles, List.cons_append, List.nil_append]
  rw [h1]
  rfl

/-! ## Decoder outputs are well formed -/

theorem emptyTable_wf : TableWF emptyTable := by
  intro k d h
  exact absurd h (by simp [emptyTable])

theorem parseDefRecord_wf (tbl : Table) (slot : Nat) (dev : Bool) (bytes : List Nat)
    (m? : Option Mesg) (tbl' : Table) (rest : List Nat) (hwf : TableWF tbl)
    (h : parseDefRecord tbl slot dev bytes = .ok (m?, tbl', rest)) :
    TableWF tbl' := by
  rcases parseDefRecord_cases tbl slot dev bytes with hc | ⟨d, rest2, hc, hd⟩
  · rw [hc] at h
    exact absurd h (by simp)
  · rw [hc] at h
    simp only [Except.ok.injEq, Prod.mk.injEq] at h
    obtain ⟨-, h2, -⟩ := h
    rw [← h2]
    intro k d' hk
    by_cases hks : k = slot
    · subst hks
      rw [Function.update_same] at hk
      cases hk
      exact hd
    · rw [Function.update_noteq hks] at hk
      exact hwf k d' hk

theorem parseDataRecord_wf (tbl : Table) (slot : Nat) (bytes : List Nat)
    (m? : Option Mesg) (tbl' : Table) (rest : List Nat) (hwf : TableWF tbl)
    (h : parseDataRecord tbl slot bytes = .ok (m?, tbl', rest)) :
    TableWF tbl' ∧ ∀ B, m? = some B → MesgWF B := by
  unfold parseDataRecord at h
  cases ht : tbl slot with
  | none =>
    rw [ht] at h
    exact absurd h (by simp)
  | some d =>
    simp only [ht] at h
    cases hp : parseFields d.endian d.fieldDefs bytes with
    | none =>
      rw [hp] at h
      exact absurd h (by simp)
    | some p =>
      obtain ⟨fs, r⟩ := p
      rw [hp] at h
      simp only [Except.ok.injEq, Prod.mk.injEq] at h
      obtain ⟨h1, h2, -⟩ := h
      obtain ⟨hg, hl, hb⟩ := hwf slot d ht
      obtain ⟨hfl, hfb⟩ := parseFields_wf d.endian d.fieldDefs bytes fs r hb hp
      constructor
      · rw [← h2]
        exact hwf
      · intro B hB
        rw [← h1] at hB
        cases hB
        refine ⟨hg, ?_, hfb⟩
        show fs.length ≤ 255
        omega

theorem parseRecord_wf (tbl : Table) (bytes : List Nat) (m? : Option Mesg) (tbl' : Table)
    (rest : List Nat) (hwf : TableWF tbl)
    (h : parseRecord tbl bytes = .ok (m?, tbl', rest)) :
    TableWF tbl' ∧ ∀ B, m? = some B → MesgWF B := by
  cases bytes with
  | nil => exact absurd h (by simp [parseRecord])
  | cons b bs =>
    have hrec : parseRecord tbl (b :: bs) =
        (if b % 256 ≥ 0x80 then parseDataRecord tbl (b % 256 / 32 % 4) bs
         else if b % 256 &&& 0x40 ≠ 0 then
           parseDefRecord tbl (b % 256 % 16) (b % 256 &&& 0x20 != 0) bs
         else parseDataRecord tbl (b % 256 % 16) bs) := rfl
    rw [hrec] at h
    by_cases h1 : b % 256 ≥ 0x80
    · rw [if_pos h1] at h
      exact parseDataRecord_wf _ _ _ _ _ _ hwf h
    · rw [if_neg h1] at h
      by_cases h2 : b % 256 &&& 0x40 ≠ 0
      · rw [if_pos h2] at h
        refine ⟨parseDefRecord_wf _ _ _ _ _ _ _ hwf h, ?_⟩
        rcases parseDefRecord_cases tbl (b % 256 % 16) (b % 256 &&& 0x20 != 0) bs with
          hc | ⟨d, rest2, hc, -⟩
        · rw [hc] at h
          exact absurd h (by simp)
        · rw [hc] at h
          simp only [Except.ok.injEq, Prod.mk.injEq] at h
          intro B hB
          rw [← h.1] at hB
          exact absurd hB (by simp)
      · rw [if_neg h2] at h
        exact parseDataRecord_wf _ _ _ _ _ _ hwf h

theorem decodeRecords_wf (fuel : Nat) (tbl : Table) (msgs : List Mesg) (bytes : List Nat)
    (out : List Mesg) (hwf : TableWF tbl) (hmsgs : ∀ B ∈ msgs, MesgWF B)
    (h : decodeRecords fuel tbl msgs bytes = .ok out) :
    ∀ B ∈ out, MesgWF B := by
  induction fuel generalizing tbl msgs bytes with
  | zero =>
    cases bytes with
    | nil =>
      simp only [decodeRecords, Except.ok.injEq] at h
      rw [← h]
      exact hmsgs
    | cons b bs => exact absurd h (by simp [decodeRecords])
  | succ fuel ih =>
    cases bytes with
    | nil =>
      simp only [decodeRecords, Except.ok.injEq] at h
      rw [← h]
      exact hmsgs
    | cons b bs =>
      simp only [decodeRecords] at h
      cases hp : parseRecord tbl (b :: bs) with
      | error err =>
        rw [hp] at h
        exact absurd h (by simp)
      | ok q =>
        obtain ⟨m?, tbl', rest'⟩ := q
        rw [hp] at h
        obtain ⟨hwf', hm⟩ := parseRecord_wf tbl (b :: bs) m? tbl' rest' hwf hp
        refine ih tbl' (msgs ++ m?.toList) rest' hwf' ?_ h
        intro B hB
        rcases List.mem_append.mp hB with hB | hB
        · exact hmsgs B hB
        · cases m? with
          | none => exact absurd hB (by simp)
          | some C =>
            simp only [Option.toList, List.mem_singleton] at hB
            subst hB
            exact hm B rfl

theorem decodeBody_wf (stream : List Nat) (hsz ds : Nat) (body : List Nat)
    (msgs : List Mesg) (rest : List Nat)
    (h : decodeBody stream hsz ds body = .ok (msgs, rest)) :
    ∀ B ∈ msgs, MesgWF B := by
  unfold decodeBody at h
  by_cases hle : ds + 2 ≤ body.length
  · rw [if_pos hle] at h
    cases hr : decodeRecords ds emptyTable [] (body.take ds) with
    | error err =>
      rw [hr] at h
      exact absurd h (by simp)
    | ok out =>
      simp only [hr] at h
      by_cases hcrc : fromBytesLE ((body.drop ds).take 2) =
          fitCrc16 (stream.take (hsz + ds))
      · rw [if_pos hcrc] at h
        simp only [Except.ok.injEq, Prod.mk.injEq] at h
        obtain ⟨h1, -⟩ := h
        rw [← h1]
        exact decodeRecords_wf ds emptyTable [] (body.take ds) out emptyTable_wf
          (by simp) hr
      · rw [if_neg hcrc] at h
        exact absurd h (by simp)
  · rw [if_neg hle] at h
    exact absurd h (by simp)

theorem decodeOne_wf (stream : List Nat) (msgs : List Mesg) (rest : List Nat)
    (h : decodeOne stream = .ok (msgs, rest)) :
    ∀ B ∈ msgs, MesgWF B := by
  unfold decodeOne at h
  split at h
  case _ hs pv p1 p2 s1 s2 s3 s4 t1 t2 t3 t4 r =>
    split at h
    · split at h
      · exact absurd h (by simp)
      · split at h
        · exact decodeBody_wf _ _ _ _ _ _ h
        · split at h
          · split at h
            case _ c1 c2 rest2 =>
              split at h
              · exact decodeBody_wf _ _ _ _ _ _ h
              · exact absurd h (by simp)
            case _ =>
              exact absurd h (by simp)
          · exact absurd h (by simp)
    · exact absurd h (by simp)
  case _ =>
    exact absurd h (by simp)

theorem decodeFiles_wf (fuel : Nat) (stream : List Nat) (out : List Mesg)
    (h : decodeFiles fuel stream = .ok out) :
    ∀ B ∈ out, MesgWF B := by
  induction fuel generalizing stream out with
  | zero => exact absurd h (by simp [decodeFiles])
  | succ fuel ih =>
    simp only [decodeFiles] at h
    cases ho : decodeOne stream with
    | error err =>
      rw [ho] at h
      exact absurd h (by simp)
    | ok q =>
      obtain ⟨msgs, rest⟩ := q
      simp only [ho] at h
      by_cases hr : rest.isEmpty
      · rw [if_pos hr] at h
        simp only [Except.ok.injEq] at h
        rw [← h]
        exact decodeOne_wf stream msgs rest ho
      · rw [if_neg hr] at h
        cases hf : decodeFiles fuel rest with
        | error err =>
          rw [hf] at h
          exact absurd h (by simp)
        | ok more =>
          rw [hf] at h
          simp only [Except.ok.injEq] at h
          rw [← h]
          intro B hB
          rcases List.mem_append.mp hB with hB | hB
          · exact decodeOne_wf stream msgs rest ho B hB
          · exact ih rest more hf B hB

theorem decode_wf (s : List Nat) (msgs : List Mesg) (h : decode s = .ok msgs) :
    ∀ B ∈ msgs, MesgWF B :=
  decodeFiles_wf (s.length + 1) s msgs h

/-! ## Round trip: decode after encode -/

theorem layoutOf_wf (B : Mesg) (h : ∀ f ∈ B.fields, FieldWF f) :
    ∀ fd ∈ layoutOf B, fd.num < 256 ∧ fd.size < 256 := by
  intro fd hfd
  simp only [layoutOf, List.mem_map] at hfd
  obtain ⟨f, hf, rfl⟩ := hfd
  obtain ⟨h1, h2, -⟩ := h f hf
  refine ⟨h1, ?_⟩
  show f.values.length * f.type.size < 256
  omega

theorem parseFields_layout (e : Endianness) (B : Mesg) (rest : List Nat)
    (h : ∀ f ∈ B.fields, FieldWF f) :
    parseFields e (layoutOf B) (dataPayload e B ++ rest) = some (B.fields, rest) :=
  parseFields_encode e B.fields rest h

theorem decodeRecords_def_data (fuel : Nat) (e : Endianness) (B : Mesg) (h : MesgWF B) :
    decodeRecords (fuel + 2) emptyTable []
      (defRecord e 0 B.num (layoutOf B) ++ dataRecord e 0 B) = .ok [B] := by
  obtain ⟨hnum, hflen, hfields⟩ := h
  obtain ⟨g1, g2, hg⟩ : ∃ g1 g2, toBytesE e 2 B.num = [g1, g2] := by
    cases e
    · exact ⟨_, _, rfl⟩
    · exact ⟨_, _, rfl⟩
  have hpow2 : (256 : Nat) ^ 2 = 65536 := by norm_num
  have hfrom : fromBytesE e [g1, g2] = B.num := by
    rw [← hg]
    exact fromBytesE_toBytesE e 2 B.num (by rw [hpow2]; exact hnum)
  have hlayoutlen : (layoutOf B).length = B.fields.length := by simp [layoutOf]
  have hcnt : (layoutOf B).length % 256 % 256 = (layoutOf B).length := by omega
  have hfds := layoutOf_wf B hfields
  have hdef : defRecord e 0 B.num (layoutOf B) ++ dataRecord e 0 B =
      64 :: 0 :: archByte e :: g1 :: g2 :: ((layoutOf B).length % 256) ::
        ((layoutOf B).flatMap (fun fd => [fd.num % 256, fd.size % 256, fd.type.code]) ++
          (0 :: dataPayload e B)) := by
    unfold defRecord dataRecord
    rw [hg]
    rfl
  rw [hdef]
  rw [show fuel + 2 = (fuel + 1) + 1 from rfl]
  simp only [decodeRecords]
  have hpr1 : parseRecord emptyTable (64 :: 0 :: archByte e :: g1 :: g2 ::
      ((layoutOf B).length % 256) ::
      ((layoutOf B).flatMap (fun fd => [fd.num % 256, fd.size % 256, fd.type.code]) ++
        (0 :: dataPayload e B))) =
      parseDefRecord emptyTable 0 false (0 :: archByte e :: g1 :: g2 ::
        ((layoutOf B).length % 256) ::
        ((layoutOf B).flatMap (fun fd => [fd.num % 256, fd.size % 256, fd.type.code]) ++
          (0 :: dataPayload e B))) := rfl
  have hpd : parseDefRecord emptyTable 0 false (0 :: archByte e :: g1 :: g2 ::
      ((layoutOf B).length % 256) ::
      ((layoutOf B).flatMap (fun fd => [fd.num % 256, fd.size % 256, fd.type.code]) ++
        (0 :: dataPayload e B))) =
      .ok (none, Function.update emptyTable 0 (some ⟨e, B.num, layoutOf B⟩),
        0 :: dataPayload e B) := by
    simp only [parseDefRecord]
    rw [hcnt, parseFieldDefs_encode (layoutOf B) (0 :: dataPayload e B) hfds]
    rw [arch_round, hfrom]
    rfl
  rw [hpr1]
  simp only [hpd]
  show decodeRecords (fuel + 1) (Function.update emptyTable 0 (some ⟨e, B.num, layoutOf B⟩))
    [] (0 :: dataPayload e B) = .ok [B]
  simp only [decodeRecords]
  have hpr2 : parseRecord (Function.update emptyTable 0 (some ⟨e, B.num, layoutOf B⟩))
      (0 :: dataPayload e B) =
      parseDataRecord (Function.update emptyTable 0 (some ⟨e, B.num, layoutOf B⟩)) 0
        (dataPayload e B) := rfl
  have hpdata : parseDataRecord (Function.update emptyTable 0 (some ⟨e, B.num, layoutOf B⟩)) 0
      (dataPayload e B) =
      .ok (some B, Function.update emptyTable 0 (some ⟨e, B.num, layoutOf B⟩), []) := by
    unfold parseDataRecord
    simp only [Function.update_same]
    rw [← List.append_nil (dataPayload e B), parseFields_layout e B [] hfields]
  rw [hpr2]
  simp only [hpdata]
  simp only [decodeRecords]
  rfl

theorem encodeRecords_single (e : Endianness) (B : Mesg) :
    encodeRecords e encInit [B] = defRecord e 0 B.num (layoutOf B) ++ dataRecord e 0 B := by
  simp only [encodeRecords]
  rw [List.append_nil]
  rfl

theorem defRecord_length (e : Endianness) (slot gmn : Nat) (fds : List FieldDef) :
    (defRecord e slot gmn fds).length = 6 + 3 * fds.length := by
  unfold defRecord
  simp only [List.length_cons, List.length_append, length_toBytesE, length_defTriples,
    List.length_singleton, List.length_nil]
  omega

theorem dataRecord_length_le (e : Endianness) (slot : Nat) (B : Mesg)
    (h : ∀ f ∈ B.fields, FieldWF f) :
    (dataRecord e slot B).length ≤ 1 + 255 * B.fields.length := by
  unfold dataRecord dataPayload
  simp only [List.length_cons]
  have hb := flatMap_length_le (fun f => f.values.flatMap (fun v => toBytesE e f.type.size v))
    B.fields 255 (fun f hf => by
      obtain ⟨-, h2, -⟩ := h f hf
      rw [length_flatMap_toBytes]
      exact h2)
  omega

theorem roundtrip_single (e : Endianness) (B : Mesg) (h : MesgWF B) :
    decode (encodeFile e [B]) = .ok [B] := by
  obtain ⟨hnum, hflen, hfields⟩ := h
  have hrecs := encodeRecords_single e B
  have hlayl : (layoutOf B).length = B.fields.length := by simp [layoutOf]
  have hreclen_lt : (encodeRecords e encInit [B]).length < 4294967296 := by
    rw [hrecs, List.length_append, defRecord_length]
    have hd := dataRecord_length_le e 0 B hfields
    rw [hlayl]
    omega
  obtain ⟨s1, s2, s3, s4, hs4⟩ :
      ∃ a b c d, toBytesLE 4 (encodeRecords e encInit [B]).length = [a, b, c, d] :=
    ⟨_, _, _, _, rfl⟩
  have hpow4 : (256 : Nat) ^ 4 = 4294967296 := by norm_num
  have hsize : fromBytesLE [s1, s2, s3, s4] = (encodeRecords e encInit [B]).length := by
    rw [← hs4]
    exact fromBytesLE_toBytesLE 4 _ (by rw [hpow4]; exact hreclen_lt)
  have hrec2 : decodeRecords (encodeRecords e encInit [B]).length emptyTable []
      (encodeRecords e encInit [B]) = .ok [B] := by
    rw [hrecs]
    rw [show (defRecord e 0 B.num (layoutOf B) ++ dataRecord e 0 B).length =
        ((defRecord e 0 B.num (layoutOf B) ++ dataRecord e 0 B).length - 2) + 2 from by
      rw [List.length_append, defRecord_length]
      omega]
    exact decodeRecords_def_data _ e B ⟨hnum, hflen, hfields⟩
  have hstream : encodeFile e [B] =
      12 :: 16 :: 0 :: 0 :: s1 :: s2 :: s3 :: s4 :: 0x2E :: 0x46 :: 0x49 :: 0x54 ::
        (encodeRecords e encInit [B] ++ toBytesLE 2 (fitCrc16 (12 :: 16 :: 0 :: 0 :: s1 ::
          s2 :: s3 :: s4 :: 0x2E :: 0x46 :: 0x49 :: 0x54 :: encodeRecords e encInit [B]))) := by
    unfold encodeFile
    rw [hs4]
    rfl
  have hone : decodeOne (encodeFile e [B]) = .ok ([B], []) := by
    rw [hstream]
    exact decodeOne_good 16 0 0 s1 s2 s3 s4 (encodeRecords e encInit [B]) [B]
      (by norm_num) hsize hrec2
  unfold decode
  simp only [decodeFiles]
  simp only [hone]
  rfl

/-! ## C1 -/

/-- C1: for every field bag produced by the decoder, encoding it and
feeding the bytes back through the decoder yields exactly that field bag
(decode after encode is the identity on decoder-produced field bags). -/
theorem claim1 (e : Endianness) (s : List Nat) (msgs : List Mesg) (B : Mesg)
    (hdec : decode s = .ok msgs) (hmem : B ∈ msgs) :
    decode (encodeFile e [B]) = .ok [B] :=
  roundtrip_single e B (decode_wf s msgs hdec B hmem)

set_option maxRecDepth 8000 in
/-- Witness for C1 at a concrete input: a bag holding field 254 with the
`uint16` value 7 round-trips through encode and decode. -/
theorem claim1_witness :
    decode (encodeFile .little [⟨16, [⟨254, .uint16, [7]⟩]⟩]) =
      .ok [⟨16, [⟨254, .uint16, [7]⟩]⟩] ∧
    (⟨16, [⟨254, .uint16, [7]⟩]⟩ : Mesg) ∈ ([⟨16, [⟨254, .uint16, [7]⟩]⟩] : List Mesg) :=
  ⟨claim1 .little (encodeFile .little [⟨16, [⟨254, .uint16, [7]⟩]⟩])
      [⟨16, [⟨254, .uint16, [7]⟩]⟩] ⟨16, [⟨254, .uint16, [7]⟩]⟩ (by rfl) (by simp),
   by simp⟩

/-- Witness for C7 at a concrete input: protocol version byte 16. -/
theorem claim7_witness :
    16 % 256 / 16 ≤ 2 ∧
    decode ([12, 16, 0, 0, 0, 0, 0, 0, 0x2E, 0x46, 0x49, 0x54] ++
      toBytesLE 2 (fitCrc16 [12, 16, 0, 0, 0, 0, 0, 0, 0x2E, 0x46, 0x49, 0x54])) = .ok [] :=
  ⟨by decide, claim7 16 0 0 (by decide)⟩

end fit
